import Mathlib

/-!
Verification of the trash lifecycle manager of the `rrm` utility
(`src/trash.rs`, `src/xattr.rs`, `src/error.rs`), shallowly embedded in
Lean 4.  Timestamps are modelled as calendar records mirroring
`chrono::DateTime<Utc>` (comparison is the lexicographic order, which is
order-isomorphic to chrono's instant order on valid records); paths are
modelled as component lists mirroring `std::path::PathBuf`; the
filesystem plus the extended-attribute store is an association list from
resolved absolute paths to objects carrying their attribute maps.
-/

set_option autoImplicit false

namespace Rrm

/-- Model of `chrono::DateTime<Utc>`: a UTC calendar timestamp.
`nanos` is the subsecond part in nanoseconds.  The leap-second encoding
(`nanos ≥ 10^9`) of chrono is outside the valid range modelled here;
`Utc::now()` never produces it. -/
structure ChronoDateTime where
  year : Nat
  month : Nat
  day : Nat
  hour : Nat
  minute : Nat
  second : Nat
  nanos : Nat
deriving DecidableEq, Repr

def isLeapYear (y : Nat) : Bool :=
  (y % 4 = 0 && y % 100 ≠ 0) || y % 400 = 0

def daysInMonth (y m : Nat) : Nat :=
  if m = 2 then (if isLeapYear y then 29 else 28)
  else if m = 4 || m = 6 || m = 9 || m = 11 then 30
  else 31

/-- Calendar validity of a modelled timestamp (the range representable
and re-parsable in a four-digit-year RFC 3339 string). -/
def isValidDT (dt : ChronoDateTime) : Bool :=
  decide (1 ≤ dt.month) && decide (dt.month ≤ 12) &&
  decide (1 ≤ dt.day) && decide (dt.day ≤ daysInMonth dt.year dt.month) &&
  decide (dt.hour ≤ 23) && decide (dt.minute ≤ 59) && decide (dt.second ≤ 59) &&
  decide (dt.nanos < 1000000000) && decide (dt.year ≤ 9999)

/-- Model of chrono's `<` on `DateTime<Utc>`: lexicographic on the
calendar fields, which on valid records agrees with comparison of the
underlying instants. -/
def dtLt (a b : ChronoDateTime) : Bool :=
  if a.year ≠ b.year then a.year < b.year
  else if a.month ≠ b.month then a.month < b.month
  else if a.day ≠ b.day then a.day < b.day
  else if a.hour ≠ b.hour then a.hour < b.hour
  else if a.minute ≠ b.minute then a.minute < b.minute
  else if a.second ≠ b.second then a.second < b.second
  else a.nanos < b.nanos

/-! ### RFC 3339 printing, mirroring `DateTime::to_rfc3339`
(`SecondsFormat::AutoSi`, offset rendered as `+00:00`). -/

def digitCh (n : Nat) : Char :=
  match n with
  | 0 => '0' | 1 => '1' | 2 => '2' | 3 => '3' | 4 => '4'
  | 5 => '5' | 6 => '6' | 7 => '7' | 8 => '8' | _ => '9'

def digitVal (c : Char) : Nat := c.toNat - 48

def isDigitCh (c : Char) : Bool := 48 ≤ c.toNat && c.toNat ≤ 57

def pad2 (n : Nat) : List Char := [digitCh (n / 10), digitCh (n % 10)]

def pad3 (n : Nat) : List Char :=
  [digitCh (n / 100), digitCh (n / 10 % 10), digitCh (n % 10)]

def pad4 (n : Nat) : List Char :=
  [digitCh (n / 1000), digitCh (n / 100 % 10), digitCh (n / 10 % 10), digitCh (n % 10)]

def pad6 (n : Nat) : List Char := pad3 (n / 1000) ++ pad3 (n % 1000)

def pad9 (n : Nat) : List Char := pad3 (n / 1000000) ++ pad6 (n % 1000000)

/-- `AutoSi` fractional seconds: nothing when zero, else 3, 6 or 9
digits depending on the precision actually present. -/
def fracChars (ns : Nat) : List Char :=
  if ns = 0 then []
  else if ns % 1000000 = 0 then '.' :: pad3 (ns / 1000000)
  else if ns % 1000 = 0 then '.' :: pad6 (ns / 1000)
  else '.' :: pad9 ns

def rfc3339Chars (dt : ChronoDateTime) : List Char :=
  pad4 dt.year ++ ('-' :: (pad2 dt.month ++ ('-' :: (pad2 dt.day ++
    ('T' :: (pad2 dt.hour ++ (':' :: (pad2 dt.minute ++ (':' :: (pad2 dt.second ++
    (fracChars dt.nanos ++ ['+', '0', '0', ':', '0', '0'])))))))))))

/-- Model of `deletion_date.to_rfc3339()`. -/
def toRfc3339 (dt : ChronoDateTime) : String := String.mk (rfc3339Chars dt)

/-! ### RFC 3339 parsing, mirroring `DateTime::parse_from_rfc3339`
followed by `.with_timezone(&Utc)`.  The model accepts only the zero
offsets `Z`/`+00:00`/`-00:00` (chrono additionally normalises nonzero
offsets to UTC; the manager only ever writes `+00:00`). -/

def read2 : List Char → Option (Nat × List Char)
  | a :: b :: rest =>
    if isDigitCh a && isDigitCh b then some (digitVal a * 10 + digitVal b, rest)
    else none
  | _ => none

def read4 : List Char → Option (Nat × List Char)
  | a :: b :: c :: d :: rest =>
    if isDigitCh a && isDigitCh b && isDigitCh c && isDigitCh d then
      some (((digitVal a * 10 + digitVal b) * 10 + digitVal c) * 10 + digitVal d, rest)
    else none
  | _ => none

def expectCh (c : Char) : List Char → Option (List Char)
  | x :: rest => if x = c then some rest else none
  | [] => none

/-- Reads a maximal leading run of digit characters. -/
def readDigits : List Char → List Nat × List Char
  | [] => ([], [])
  | c :: rest =>
    if isDigitCh c then
      let p := readDigits rest
      (digitVal c :: p.1, p.2)
    else ([], c :: rest)

/-- Scales a parsed fraction-digit list to nanoseconds (at most nine
digits are significant). -/
def fracValue (ds : List Nat) : Nat :=
  (ds.take 9).foldl (fun a d => a * 10 + d) 0 * 10 ^ (9 - min ds.length 9)

def readFrac (l : List Char) : Option (Nat × List Char) :=
  match l with
  | '.' :: rest =>
    match readDigits rest with
    | ([], _) => none
    | (d :: ds, r) => some (fracValue (d :: ds), r)
  | _ => some (0, l)

/-- Accepts exactly a zero UTC offset terminating the string. -/
def readOffset : List Char → Option Unit
  | ['Z'] => some ()
  | ['z'] => some ()
  | ['+', '0', '0', ':', '0', '0'] => some ()
  | ['-', '0', '0', ':', '0', '0'] => some ()
  | _ => none

def sepOk (c : Char) : Bool := c = 'T' || c = 't' || c = ' '

def expectSep : List Char → Option (List Char)
  | x :: rest => if sepOk x then some rest else none
  | [] => none

def mkValid (y mo d h mi s ns : Nat) : Option ChronoDateTime :=
  if 1 ≤ mo ∧ mo ≤ 12 ∧ 1 ≤ d ∧ d ≤ daysInMonth y mo ∧ h ≤ 23 ∧ mi ≤ 59 ∧
      s ≤ 59 ∧ ns < 1000000000 ∧ y ≤ 9999 then
    some ⟨y, mo, d, h, mi, s, ns⟩
  else none

def parseRfc3339Chars (l : List Char) : Option ChronoDateTime :=
  match read4 l with
  | none => none
  | some (y, l) =>
  match expectCh '-' l with
  | none => none
  | some l =>
  match read2 l with
  | none => none
  | some (mo, l) =>
  match expectCh '-' l with
  | none => none
  | some l =>
  match read2 l with
  | none => none
  | some (d, l) =>
  match expectSep l with
  | none => none
  | some l =>
  match read2 l with
  | none => none
  | some (h, l) =>
  match expectCh ':' l with
  | none => none
  | some l =>
  match read2 l with
  | none => none
  | some (mi, l) =>
  match expectCh ':' l with
  | none => none
  | some l =>
  match read2 l with
  | none => none
  | some (s, l) =>
  match readFrac l with
  | none => none
  | some (ns, l) =>
  match readOffset l with
  | none => none
  | some _ => mkValid y mo d h mi s ns

/-- Model of `DateTime::parse_from_rfc3339(s).with_timezone(&Utc)`. -/
def parseRfc3339 (s : String) : Option ChronoDateTime :=
  parseRfc3339Chars s.data

/-! ### Paths, mirroring `std::path::PathBuf` on POSIX.
A path is an absolute-flag plus the component list obtained from
`Path::components()` (empty and `.` components dropped, `..` kept). -/

structure RPath where
  absolute : Bool
  comps : List String
deriving DecidableEq, Repr

/-- Splits a raw path string at `/` characters (components, including
empty ones, before filtering). -/
def splitComps (cur : List Char) : List Char → List String
  | [] => [String.mk cur.reverse]
  | c :: rest =>
    if c = '/' then String.mk cur.reverse :: splitComps [] rest
    else splitComps (c :: cur) rest

/-- The normalised component list of a path string: split at `/`, drop
empty and `.` components (as `Path::components()` does). -/
def strComps (s : String) : List String :=
  (splitComps [] s.data).filter (fun c => c ≠ "" && c ≠ ".")

def strIsAbs (s : String) : Bool := s.data.head? = some '/'

/-- Model of `PathBuf::from` on a string. -/
def parsePathStr (s : String) : RPath :=
  { absolute := strIsAbs s, comps := strComps s }

/-- Model of `PathBuf::push` (hence of `Path::join`): an absolute
argument replaces the whole path, a relative one appends its
components. -/
def pushPath (p : RPath) (s : String) : RPath :=
  if strIsAbs s then parsePathStr s
  else { p with comps := p.comps ++ strComps s }

/-- Model of `Path::file_name().is_some()`: a path has a file name iff
its last component exists and is not `..`. -/
def hasFileName (p : RPath) : Bool :=
  match p.comps.getLast? with
  | some c => c ≠ ".."
  | none => false

/-- Model of `PathBuf::pop`. -/
def popPath (p : RPath) : RPath := { p with comps := p.comps.dropLast }

/-- Model of `PathBuf::set_file_name`: pop the file name when there is
one, then push the new name. -/
def setFileName (p : RPath) (s : String) : RPath :=
  pushPath (if hasFileName p then popPath p else p) s

/-- Model of `Path::parent`: strip the last component; `None` at a root
or an empty path. -/
def parentPath (p : RPath) : Option RPath :=
  match p.comps with
  | [] => none
  | _ :: _ => some { p with comps := p.comps.dropLast }

/-- Lexical resolution of `..` components, as the kernel resolves them
for a symlink-free tree. -/
def resolveComps (acc : List String) : List String → List String
  | [] => acc
  | c :: rest =>
    if c = ".." then resolveComps acc.dropLast rest
    else resolveComps (acc ++ [c]) rest

/-- The resolved absolute component list a path denotes. -/
def resolve (p : RPath) : List String := resolveComps [] p.comps

def renderComps : List String → String
  | [] => ""
  | [c] => c
  | c :: d :: rest => c ++ "/" ++ renderComps (d :: rest)

/-- Model of `Path::to_string_lossy` (the model's component strings are
always valid UTF-8, so the conversion is lossless). -/
def renderPath (p : RPath) : String :=
  (if p.absolute then "/" else "") ++ renderComps p.comps

/-! ### Filesystem with extended attributes.
A state is an association list from resolved absolute paths to objects;
each object carries its attribute map directly (attributes travel with
the object across renames, as xattrs do).  `getErrs`/`setErrs`/
`removeErrs` inject the platform I/O failures a concrete
`ExtendedAttributes` backend may produce for a key. -/

structure FsObj where
  isDir : Bool
  attrs : List (String × String)
  getErrs : List String := []
  setErrs : List String := []
  removeErrs : List String := []
deriving DecidableEq, Repr

abbrev Fs := List (List String × FsObj)

def lookupFs (fs : Fs) (k : List String) : Option FsObj :=
  match fs with
  | [] => none
  | e :: rest => if e.1 = k then some e.2 else lookupFs rest k

def attrLookup (a : List (String × String)) (k : String) : Option String :=
  match a with
  | [] => none
  | p :: rest => if p.1 = k then some p.2 else attrLookup rest k

/-- Create-or-replace semantics of `xattr::set`. -/
def attrSet (a : List (String × String)) (k v : String) : List (String × String) :=
  match a with
  | [] => [(k, v)]
  | p :: rest => if p.1 = k then (k, v) :: rest else p :: attrSet rest k v

def attrRemove (a : List (String × String)) (k : String) : List (String × String) :=
  match a with
  | [] => []
  | p :: rest => if p.1 = k then rest else p :: attrRemove rest k

def fsExists (fs : Fs) (p : RPath) : Bool := (lookupFs fs (resolve p)).isSome

/-- Replace the object stored at resolved key `k`. -/
def updateFs (fs : Fs) (k : List String) (f : FsObj → FsObj) : Fs :=
  fs.map (fun e => if e.1 = k then (e.1, f e.2) else e)

/-- `k` lies at or below the resolved path `p` (so a recursive delete or
a rename of `p` affects it). -/
def inSubtree (p k : List String) : Bool := k.take p.length = p

/-- Errors of the attribute store, mirroring `XAttrError` (the
`InvalidUtf8` variant is unrepresentable here since modelled attribute
values are always strings). -/
inductive XErr where
  | getFail (k : String)
  | setFail (k : String)
  | removeFail (k : String)
deriving DecidableEq, Repr

/-- Model of `XAttrManager::get_attr` at a path: an I/O error when the
path does not exist or the backend fails for the key; `none` when the
attribute is absent. -/
def getAttrFs (fs : Fs) (p : RPath) (k : String) : Except XErr (Option String) :=
  match lookupFs fs (resolve p) with
  | none => .error (.getFail k)
  | some o => if k ∈ o.getErrs then .error (.getFail k) else .ok (attrLookup o.attrs k)

/-- Model of `XAttrManager::set_attr`. -/
def setAttrFs (fs : Fs) (p : RPath) (k v : String) : Except XErr Fs :=
  match lookupFs fs (resolve p) with
  | none => .error (.setFail k)
  | some o =>
    if k ∈ o.setErrs then .error (.setFail k)
    else .ok (updateFs fs (resolve p) (fun o => { o with attrs := attrSet o.attrs k v }))

/-- Model of `XAttrManager::remove_attr`.  Removing an absent key is an
I/O error (`ENODATA`), as on the Linux backend the source targets. -/
def removeAttrFs (fs : Fs) (p : RPath) (k : String) : Except XErr Fs :=
  match lookupFs fs (resolve p) with
  | none => .error (.removeFail k)
  | some o =>
    if k ∈ o.removeErrs then .error (.removeFail k)
    else match attrLookup o.attrs k with
      | none => .error (.removeFail k)
      | some _ =>
        .ok (updateFs fs (resolve p) (fun o => { o with attrs := attrRemove o.attrs k }))

/-- Model of `fs::remove_file` / `fs::remove_dir_all` at an existing
path: the object and everything below it disappears. -/
def removeRec (fs : Fs) (p : RPath) : Fs :=
  fs.filter (fun e => !inSubtree (resolve p) e.1)

/-- Model of `fs::rename src dst`: the subtree at `src` is re-rooted at
`dst`.  Fails when `src` does not exist. -/
def renameFs (fs : Fs) (src dst : RPath) : Except Unit Fs :=
  let s := resolve src
  let d := resolve dst
  if (lookupFs fs s).isSome then
    .ok (fs.map (fun e => if inSubtree s e.1 then (d ++ e.1.drop s.length, e.2) else e))
  else .error ()

/-- Model of `Path::canonicalize`: fails (with an I/O error) when the
path does not exist, otherwise yields the resolved absolute path. -/
def canonicalizeFs (fs : Fs) (p : RPath) : Except Unit RPath :=
  if fsExists fs p then .ok { absolute := true, comps := resolve p } else .error ()

/-! ### The trash manager (`src/trash.rs`). -/

def ORIGINAL_PATH_ATTR : String := "original_path"

def DELETION_DATE_ATTR : String := "deletion_date"

/-- Errors of `src/error.rs` reachable from the trash manager. -/
inductive RError where
  | missingAttribute (attr id : String)
  | invalidOriginalPath (p : String)
  | pathAlreadyExists (p : String)
  | itemNotFound (id : String)
  | xattr (e : XErr)
  | io
deriving DecidableEq, Repr

/-- Model of `TrashItem`. -/
structure TrashItem where
  id : String
  path : RPath
  original_path : String
  deletion_date : ChronoDateTime
deriving DecidableEq, Repr

/-- Model of `TrashItem::kind`: `"Directory"` iff `path.is_dir()`, that
is, iff the path currently exists and is a directory. -/
def TrashItem.kind (fs : Fs) (item : TrashItem) : String :=
  if (match lookupFs fs (resolve item.path) with
      | some o => o.isDir
      | none => false) then "Directory"
  else "File"

/-- `e.1` minus the leading components `pre`, when `pre` leads `e.1`. -/
def dropLead : List String → List String → Option (List String)
  | [], l => some l
  | _ :: _, [] => none
  | a :: as, b :: bs => if a = b then dropLead as bs else none

/-- One step of the `list_items` loop, for the directory entry `e` of
the trash directory whose resolved path is `td`: skip the entry unless
it is an immediate child carrying a readable `original_path` attribute
and a readable, RFC 3339-parsable `deletion_date` attribute.  (In a real
directory the entry and the object the child path denotes coincide;
attribute reads are therefore taken from `e.2` directly.) -/
def entryItem (td : List String) (e : List String × FsObj) : Option TrashItem :=
  match dropLead td e.1 with
  | some [n] =>
    if ORIGINAL_PATH_ATTR ∈ e.2.getErrs then none
    else match attrLookup e.2.attrs ORIGINAL_PATH_ATTR with
    | none => none
    | some op =>
      if DELETION_DATE_ATTR ∈ e.2.getErrs then none
      else match attrLookup e.2.attrs DELETION_DATE_ATTR with
      | none => none
      | some ds =>
        match parseRfc3339 ds with
        | none => none
        | some d =>
          some { id := n, path := { absolute := true, comps := e.1 },
                 original_path := op, deletion_date := d }
  | _ => none

/-- The items the `list_items` scan produces, in directory order. -/
def listOf (td : List String) (fs : Fs) : List TrashItem :=
  fs.filterMap (entryItem td)

/-- Model of `TrashManager::list_items`: a top-level `read_dir` failure
(missing trash directory) is fatal, every per-entry failure is a
skip. -/
def listItems (trashDir : RPath) (fs : Fs) : Except RError (List TrashItem) :=
  if fsExists fs trashDir then .ok (listOf (resolve trashDir) fs) else .error .io

/-- One iteration of the `clean_trash` loop: delete the item when
`(immediate || deletion_date < now) && path.exists()`. -/
def cleanOne (immediate : Bool) (now : ChronoDateTime) (fs : Fs) (item : TrashItem) : Fs :=
  if (immediate || dtLt item.deletion_date now) && fsExists fs item.path then
    removeRec fs item.path
  else fs

/-- Model of `TrashManager::clean_trash`. -/
def cleanTrash (trashDir : RPath) (fs : Fs) (immediate : Bool) (now : ChronoDateTime) :
    Except RError Fs :=
  match listItems trashDir fs with
  | .error e => .error e
  | .ok items => .ok (items.foldl (cleanOne immediate now) fs)

/-- The destination `restore_item_by_id` computes from the stored
`original_path` attribute and the optional rename argument
(`PathBuf::from` then `set_file_name` when a rename is given). -/
def restoreDest (op : String) (rename : Option String) : RPath :=
  match rename with
  | some n => setFileName (parsePathStr op) n
  | none => parsePathStr op

/-- Model of `TrashManager::restore_item_by_id`.  Returns the result
together with the filesystem state it leaves behind. -/
def restoreItemById (trashDir : RPath) (fs : Fs) (id : String) (rename : Option String) :
    Except RError Unit × Fs :=
  let itemPath := pushPath trashDir id
  if !fsExists fs itemPath then (.error (.itemNotFound id), fs)
  else
    match getAttrFs fs itemPath ORIGINAL_PATH_ATTR with
    | .error e => (.error (.xattr e), fs)
    | .ok none => (.error (.missingAttribute ORIGINAL_PATH_ATTR id), fs)
    | .ok (some op) =>
      let dest := restoreDest op rename
      if fsExists fs dest then (.error (.pathAlreadyExists (renderPath dest)), fs)
      else if (match parentPath dest with
               | some par => !fsExists fs par
               | none => false) then
        (.error (.invalidOriginalPath (renderPath dest)), fs)
      else
        match removeAttrFs fs itemPath ORIGINAL_PATH_ATTR with
        | .error e => (.error (.xattr e), fs)
        | .ok fs1 =>
          match removeAttrFs fs1 itemPath DELETION_DATE_ATTR with
          | .error e => (.error (.xattr e), fs1)
          | .ok fs2 =>
            match renameFs fs2 itemPath dest with
            | .error _ => (.error .io, fs2)
            | .ok fs3 => (.ok (), fs3)

/-- An input path of `trash_items`: the `PathBuf` argument plus whether
the canonical form is representable as UTF-8 (`Path::to_str`
succeeds). -/
structure InPath where
  path : RPath
  utf8 : Bool
deriving DecidableEq, Repr

/-- Trash-manager state threaded through `trash_items`: the filesystem
and the supply of UUIDs `Uuid::new_v4` will hand out next. -/
structure TMState where
  fs : Fs
  uuids : List String
deriving DecidableEq, Repr

def nextUuid (st : TMState) : String := st.uuids.headD "uuid"

/-- Model of `TrashManager::trash_items`.  Canonicalization, attribute
write and rename failures are propagated with `?`, aborting the whole
batch; only a canonical path that is not UTF-8-representable is skipped
with `continue`. -/
def trashItems (trashDir : RPath) (st : TMState) (paths : List InPath)
    (deletionDate : ChronoDateTime) : Except RError Unit × TMState :=
  match paths with
  | [] => (.ok (), st)
  | p :: rest =>
    match canonicalizeFs st.fs p.path with
    | .error _ => (.error .io, st)
    | .ok canon =>
      if !p.utf8 then trashItems trashDir st rest deletionDate
      else
        match setAttrFs st.fs p.path ORIGINAL_PATH_ATTR (renderPath canon) with
        | .error e => (.error (.xattr e), st)
        | .ok fs1 =>
          match setAttrFs fs1 p.path DELETION_DATE_ATTR (toRfc3339 deletionDate) with
          | .error e => (.error (.xattr e), { st with fs := fs1 })
          | .ok fs2 =>
            let uid := nextUuid st
            let trashedItemPath := pushPath trashDir uid
            match renameFs fs2 p.path trashedItemPath with
            | .error _ => (.error .io, { fs := fs2, uuids := st.uuids.tail })
            | .ok fs3 => trashItems trashDir { fs := fs3, uuids := st.uuids.tail } rest deletionDate

/-- Iterated non-immediate purge at a fixed clock (a failed run leaves
the state unchanged). -/
def purgeIter (trashDir : RPath) (now : ChronoDateTime) : Nat → Fs → Fs
  | 0, fs => fs
  | m + 1, fs =>
    match cleanTrash trashDir fs false now with
    | .ok fs' => purgeIter trashDir now m fs'
    | .error _ => fs

/-- Wellformedness of a filesystem state: directory entries are keyed
uniquely and resolved keys contain no `..` component. -/
def WfFs (fs : Fs) : Prop :=
  (fs.map Prod.fst).Nodup ∧ ∀ k ∈ fs.map Prod.fst, ∀ c ∈ k, c ≠ ".."

instance (fs : Fs) : Decidable (WfFs fs) := by
  unfold WfFs
  infer_instance

/-! ### Basic lemmas about the attribute maps and the filesystem. -/

theorem attrLookup_eq_none (a : List (String × String)) (k : String)
    (h : k ∉ a.map Prod.fst) : attrLookup a k = none := by
  induction a with
  | nil => rfl
  | cons p rest ih =>
    simp only [List.map_cons, List.mem_cons] at h
    push_neg at h
    have hne : ¬ p.1 = k := fun hc => h.1 hc.symm
    simp only [attrLookup, if_neg hne]
    exact ih h.2

theorem attrLookup_attrSet (a : List (String × String)) (k v k' : String) :
    attrLookup (attrSet a k v) k' = if k' = k then some v else attrLookup a k' := by
  induction a with
  | nil =>
    simp only [attrSet, attrLookup]
    by_cases h : k = k'
    · rw [if_pos h, if_pos h.symm]
    · rw [if_neg h, if_neg (fun hc => h hc.symm)]
  | cons p rest ih =>
    by_cases hp : p.1 = k
    · simp only [attrSet, if_pos hp, attrLookup]
      by_cases h : k = k'
      · rw [if_pos h, if_pos h.symm]
      · have hp' : ¬ p.1 = k' := fun hc => h (hp.symm.trans hc)
        rw [if_neg h, if_neg (fun hc => h hc.symm), if_neg hp']
    · simp only [attrSet, if_neg hp, attrLookup]
      by_cases h2 : p.1 = k'
      · have hne : ¬ k' = k := fun hc => hp (h2.trans hc)
        rw [if_pos h2, if_neg hne, if_pos h2]
      · rw [if_neg h2, if_neg h2, ih]

theorem attrLookup_attrRemove_ne (a : List (String × String)) (k k' : String)
    (h : k' ≠ k) : attrLookup (attrRemove a k) k' = attrLookup a k' := by
  induction a with
  | nil => simp [attrRemove]
  | cons p rest ih =>
    by_cases hp : p.1 = k
    · have hp' : ¬ p.1 = k' := fun hc => h (hc.symm.trans hp)
      simp only [attrRemove, if_pos hp, attrLookup, if_neg hp']
    · simp only [attrRemove, if_neg hp, attrLookup]
      by_cases h2 : p.1 = k' <;> simp [h2, ih]

theorem attrLookup_attrRemove_self (a : List (String × String)) (k : String)
    (hnd : (a.map Prod.fst).Nodup) : attrLookup (attrRemove a k) k = none := by
  induction a with
  | nil => simp [attrRemove, attrLookup]
  | cons p rest ih =>
    simp only [List.map_cons, List.nodup_cons] at hnd
    by_cases hp : p.1 = k
    · simp only [attrRemove, if_pos hp]
      exact attrLookup_eq_none rest k (hp ▸ hnd.1)
    · simp only [attrRemove, if_neg hp, attrLookup, if_neg hp]
      exact ih hnd.2

theorem lookupFs_eq_none (fs : Fs) (k : List String) :
    lookupFs fs k = none ↔ k ∉ fs.map Prod.fst := by
  induction fs with
  | nil => simp [lookupFs]
  | cons e rest ih =>
    simp only [lookupFs, List.map_cons, List.mem_cons]
    by_cases h : e.1 = k
    · rw [if_pos h]
      constructor
      · intro hc
        cases hc
      · intro hn
        exact (hn (Or.inl h.symm)).elim
    · rw [if_neg h, ih]
      constructor
      · intro hn hc
        rcases hc with hc | hc
        · exact h hc.symm
        · exact hn hc
      · intro hn hc
        exact hn (Or.inr hc)

theorem lookupFs_mem (fs : Fs) (k : List String) (o : FsObj)
    (h : lookupFs fs k = some o) : (k, o) ∈ fs := by
  induction fs with
  | nil => simp [lookupFs] at h
  | cons e rest ih =>
    by_cases he : e.1 = k
    · simp only [lookupFs, if_pos he] at h
      have hb : e.2 = o := Option.some.inj h
      have : (k, o) = e := by
        obtain ⟨a, b⟩ := e
        simp only at he hb
        rw [he, hb]
      rw [this]
      exact List.mem_cons_self e rest
    · simp only [lookupFs, if_neg he] at h
      exact List.mem_cons_of_mem _ (ih h)

theorem mem_lookupFs (fs : Fs) (k : List String) (o : FsObj)
    (hnd : (fs.map Prod.fst).Nodup) (h : (k, o) ∈ fs) : lookupFs fs k = some o := by
  induction fs with
  | nil => simp at h
  | cons e rest ih =>
    simp only [List.map_cons, List.nodup_cons] at hnd
    rcases List.mem_cons.mp h with h1 | h1
    · simp [lookupFs, ← h1]
    · have hne : ¬ e.1 = k := by
        intro he
        apply hnd.1
        rw [he]
        exact List.mem_map_of_mem Prod.fst h1
      simp only [lookupFs, if_neg hne]
      exact ih hnd.2 h1

theorem lookupFs_updateFs (fs : Fs) (k : List String) (f : FsObj → FsObj)
    (k' : List String) :
    lookupFs (updateFs fs k f) k' =
      if k' = k then Option.map f (lookupFs fs k) else lookupFs fs k' := by
  induction fs with
  | nil =>
    by_cases h : k' = k <;> simp [updateFs, lookupFs, h]
  | cons e rest ih =>
    simp only [updateFs, List.map_cons] at ih ⊢
    by_cases he : e.1 = k
    · rw [if_pos he]
      by_cases h : k' = k
      · subst h
        simp [lookupFs, he]
      · have hne : ¬ e.1 = k' := fun hc => h (hc.symm.trans he)
        simp only [lookupFs, if_neg hne, if_neg h, ih, if_neg h]
    · rw [if_neg he]
      by_cases h : k' = k
      · subst h
        simp [lookupFs, he, ih]
      · by_cases h2 : e.1 = k' <;> simp [lookupFs, h2, ih, h]

theorem keys_updateFs (fs : Fs) (k : List String) (f : FsObj → FsObj) :
    (updateFs fs k f).map Prod.fst = fs.map Prod.fst := by
  induction fs with
  | nil => simp [updateFs]
  | cons e rest ih =>
    simp only [updateFs, List.map_cons] at ih ⊢
    by_cases he : e.1 = k <;> simp [he, ih]

theorem inSubtree_self (p : List String) : inSubtree p p = true := by
  simp [inSubtree, List.take_length]

theorem inSubtree_false_of_length_le (p k : List String)
    (hlen : k.length ≤ p.length) (hne : k ≠ p) : inSubtree p k = false := by
  simp only [inSubtree, decide_eq_false_iff_not]
  rw [List.take_of_length_le hlen]
  exact hne

theorem inSubtree_true_iff (p k : List String) :
    inSubtree p k = true ↔ k.take p.length = p := by
  simp [inSubtree]

theorem resolveComps_eq (l : List String) (h : ∀ c ∈ l, c ≠ "..") :
    ∀ acc, resolveComps acc l = acc ++ l := by
  induction l with
  | nil => intro acc; simp [resolveComps]
  | cons c rest ih =>
    intro acc
    have hc : ¬ c = ".." := h c (List.mem_cons_self c rest)
    simp only [resolveComps, if_neg hc]
    rw [ih (fun d hd => h d (List.mem_cons_of_mem c hd))]
    simp

theorem resolve_of_no_dotdot (p : RPath) (h : ∀ c ∈ p.comps, c ≠ "..") :
    resolve p = p.comps := by
  simpa using resolveComps_eq p.comps h []

theorem resolveComps_append (l1 l2 : List String) (acc : List String) :
    resolveComps acc (l1 ++ l2) = resolveComps (resolveComps acc l1) l2 := by
  induction l1 generalizing acc with
  | nil => simp [resolveComps]
  | cons c rest ih =>
    by_cases hc : c = ".." <;> simp [resolveComps, hc, ih]

theorem lookupFs_removeRec (fs : Fs) (p : RPath) (k : List String) :
    lookupFs (removeRec fs p) k =
      if inSubtree (resolve p) k then none else lookupFs fs k := by
  induction fs with
  | nil => simp [removeRec, lookupFs]
  | cons e rest ih =>
    simp only [removeRec, List.filter_cons] at ih ⊢
    by_cases he : e.1 = k
    · by_cases hs : inSubtree (resolve p) k
      · have : inSubtree (resolve p) e.1 = true := he ▸ hs
        simp [this, ih, hs, lookupFs]
      · have : inSubtree (resolve p) e.1 = false := by
          rw [he]
          exact Bool.eq_false_iff.mpr (fun hc => hs hc)
        simp [this, lookupFs, he, hs]
    · by_cases hs2 : inSubtree (resolve p) e.1 = true
      · simp only [hs2, Bool.not_true, if_neg (Bool.false_ne_true), ih]
        by_cases hs : inSubtree (resolve p) k <;> simp [hs, he, lookupFs]
      · have : inSubtree (resolve p) e.1 = false := Bool.eq_false_iff.mpr hs2
        simp [this, lookupFs, he, ih]

theorem dropLead_some (T : List String) (k x : List String)
    (h : dropLead T k = some x) : k = T ++ x := by
  induction T generalizing k with
  | nil =>
    simp only [dropLead] at h
    simpa using Option.some.inj h
  | cons a as ih =>
    cases k with
    | nil => simp [dropLead] at h
    | cons b bs =>
      simp only [dropLead] at h
      by_cases hab : a = b
      · rw [if_pos hab] at h
        rw [ih bs h, hab]
        rfl
      · rw [if_neg hab] at h
        cases h

theorem dropLead_append (T x : List String) : dropLead T (T ++ x) = some x := by
  induction T with
  | nil => rfl
  | cons a as ih => simp [dropLead, ih]

/-! ### Facts about the `list_items` scan. -/

theorem entryItem_shape (T : List String) (e : List String × FsObj) (i : TrashItem)
    (h : entryItem T e = some i) :
    e.1 = T ++ [i.id] ∧ i.path = { absolute := true, comps := e.1 } := by
  unfold entryItem at h
  split at h
  case h_2 => cases h
  case h_1 n heq =>
    split at h
    · cases h
    · split at h
      case h_1 => cases h
      case h_2 op hop =>
        split at h
        · cases h
        · split at h
          case h_1 => cases h
          case h_2 ds hds =>
            split at h
            case h_1 => cases h
            case h_2 d hd =>
              cases h
              exact ⟨dropLead_some T e.1 [n] heq, rfl⟩

theorem mem_listOf (T : List String) (fs : Fs) (i : TrashItem) :
    i ∈ listOf T fs ↔ ∃ e, e ∈ fs ∧ entryItem T e = some i := by
  unfold listOf
  rw [List.mem_filterMap]

theorem listOf_comps_sublist (T : List String) (fs : Fs) :
    List.Sublist ((listOf T fs).map (fun i => i.path.comps)) (fs.map Prod.fst) := by
  induction fs with
  | nil => simp [listOf]
  | cons e rest ih =>
    cases he : entryItem T e with
    | none =>
      simp only [listOf, List.filterMap_cons, he, List.map_cons]
      exact ih.cons e.1
    | some i =>
      have hsh := entryItem_shape T e i he
      simp only [listOf, List.filterMap_cons, he, List.map_cons]
      have : i.path.comps = e.1 := by rw [hsh.2]
      rw [this]
      exact ih.cons₂ e.1

theorem listOf_mem_facts (T : List String) (fs : Fs) (i : TrashItem)
    (hwf : WfFs fs) (hi : i ∈ listOf T fs) :
    i.path = { absolute := true, comps := T ++ [i.id] } ∧
      resolve i.path = T ++ [i.id] ∧
      ∃ o, lookupFs fs (T ++ [i.id]) = some o ∧
        entryItem T (T ++ [i.id], o) = some i := by
  obtain ⟨e, he, hee⟩ := (mem_listOf T fs i).mp hi
  obtain ⟨h1, h2⟩ := entryItem_shape T e i hee
  have hkey : e.1 ∈ fs.map Prod.fst := List.mem_map_of_mem Prod.fst he
  have hres : resolve i.path = T ++ [i.id] := by
    rw [h2]
    have := resolve_of_no_dotdot { absolute := true, comps := e.1 }
      (fun c hc => hwf.2 e.1 hkey c hc)
    rw [this, h1]
  refine ⟨by rw [h2, h1], hres, e.2, ?_, ?_⟩
  · rw [← h1]
    exact mem_lookupFs fs e.1 e.2 hwf.1 (by cases e; exact he)
  · rw [← h1]
    cases e
    exact hee

theorem listOf_resolved_nodup (T : List String) (fs : Fs) (hwf : WfFs fs) :
    ((listOf T fs).map (fun i => resolve i.path)).Nodup := by
  have hsub := listOf_comps_sublist T fs
  have hnd : ((listOf T fs).map (fun i => i.path.comps)).Nodup :=
    hsub.nodup hwf.1
  have heq : (listOf T fs).map (fun i => resolve i.path) =
      (listOf T fs).map (fun i => i.path.comps) := by
    apply List.map_congr_left
    intro i hi
    exact (listOf_mem_facts T fs i hwf hi).2.1.trans
      (by rw [(listOf_mem_facts T fs i hwf hi).1])
  rw [heq]
  exact hnd

theorem listOf_resolved_length (T : List String) (fs : Fs) (i : TrashItem)
    (hwf : WfFs fs) (hi : i ∈ listOf T fs) :
    (resolve i.path).length = T.length + 1 := by
  rw [(listOf_mem_facts T fs i hwf hi).2.1]
  simp

/-! ### The `clean_trash` deletion loop. -/

theorem cleanOne_cases (imm : Bool) (now : ChronoDateTime) (fs : Fs) (i : TrashItem) :
    cleanOne imm now fs i = removeRec fs i.path ∨ cleanOne imm now fs i = fs := by
  unfold cleanOne
  by_cases h : ((imm || dtLt i.deletion_date now) && fsExists fs i.path) = true
  · left
    rw [if_pos h]
  · right
    rw [if_neg h]

theorem foldl_cleanOne_none (imm : Bool) (now : ChronoDateTime) (l : List TrashItem)
    (fs : Fs) (k : List String) (h : lookupFs fs k = none) :
    lookupFs (l.foldl (cleanOne imm now) fs) k = none := by
  induction l generalizing fs with
  | nil => exact h
  | cons i rest ih =>
    simp only [List.foldl_cons]
    apply ih
    rcases cleanOne_cases imm now fs i with hc | hc
    · rw [hc, lookupFs_removeRec]
      by_cases hs : inSubtree (resolve i.path) k <;> simp [hs, h]
    · rw [hc]
      exact h

theorem foldl_cleanOne_preserve (imm : Bool) (now : ChronoDateTime) (l : List TrashItem)
    (fs : Fs) (k : List String)
    (h : ∀ i ∈ l, inSubtree (resolve i.path) k = false) :
    lookupFs (l.foldl (cleanOne imm now) fs) k = lookupFs fs k := by
  induction l generalizing fs with
  | nil => rfl
  | cons i rest ih =>
    simp only [List.foldl_cons]
    rw [ih (cleanOne imm now fs i) (fun j hj => h j (List.mem_cons_of_mem i hj))]
    rcases cleanOne_cases imm now fs i with hc | hc
    · rw [hc, lookupFs_removeRec, h i (List.mem_cons_self i rest)]
      simp
    · rw [hc]

theorem foldl_cleanOne_lookup (imm : Bool) (now : ChronoDateTime) (l : List TrashItem) :
    ∀ fs : Fs, ∀ i ∈ l, ∀ o : FsObj,
      ((l.map (fun j => resolve j.path)).Nodup) →
      (∀ j1 ∈ l, ∀ j2 ∈ l, (resolve j1.path).length = (resolve j2.path).length) →
      lookupFs fs (resolve i.path) = some o →
      lookupFs (l.foldl (cleanOne imm now) fs) (resolve i.path) =
        if imm || dtLt i.deletion_date now then none else some o := by
  induction l with
  | nil => intro fs i hi; cases hi
  | cons j rest ih =>
    intro fs i hi o hnd hlen ho
    simp only [List.map_cons, List.nodup_cons] at hnd
    simp only [List.foldl_cons]
    rcases List.mem_cons.mp hi with hij | hir
    · subst hij
      have hex : fsExists fs i.path = true := by
        simp [fsExists, ho]
      by_cases hg : (imm || dtLt i.deletion_date now) = true
      · have : cleanOne imm now fs i = removeRec fs i.path := by
          unfold cleanOne
          rw [if_pos (by rw [hg, hex]; rfl)]
        rw [this, hg, if_pos rfl]
        apply foldl_cleanOne_none
        rw [lookupFs_removeRec, if_pos (inSubtree_self (resolve i.path))]
      · have hgf : (imm || dtLt i.deletion_date now) = false :=
          Bool.eq_false_iff.mpr hg
        have : cleanOne imm now fs i = fs := by
          unfold cleanOne
          rw [if_neg (by rw [hgf]; simp)]
        rw [this, hgf, if_neg (by simp)]
        rw [foldl_cleanOne_preserve]
        · exact ho
        · intro j' hj'
          apply inSubtree_false_of_length_le
          · rw [hlen i (List.mem_cons_self i rest) j'
              (List.mem_cons_of_mem i hj')]
          · intro hc
            exact hnd.1 (hc ▸ List.mem_map_of_mem (fun j => resolve j.path) hj')
    · have hpres : lookupFs (cleanOne imm now fs j) (resolve i.path) = some o := by
        rcases cleanOne_cases imm now fs j with hc | hc
        · rw [hc, lookupFs_removeRec]
          have hne : resolve i.path ≠ resolve j.path := by
            intro hc2
            exact hnd.1 (hc2 ▸ List.mem_map_of_mem (fun j => resolve j.path) hir)
          rw [inSubtree_false_of_length_le _ _
            (le_of_eq (hlen i (List.mem_cons_of_mem j hir) j (List.mem_cons_self j rest)))
            hne]
          exact ho
        · rw [hc]
          exact ho
      exact ih (cleanOne imm now fs j) i hir o hnd.2
        (fun j1 h1 j2 h2 => hlen j1 (List.mem_cons_of_mem j h1) j2 (List.mem_cons_of_mem j h2))
        hpres

theorem listItems_ok_elim (td : RPath) (fs : Fs) (items : List TrashItem)
    (hlist : listItems td fs = .ok items) :
    fsExists fs td = true ∧ items = listOf (resolve td) fs := by
  unfold listItems at hlist
  by_cases h : fsExists fs td
  · rw [if_pos h] at hlist
    exact ⟨h, (Except.ok.inj hlist).symm⟩
  · rw [if_neg h] at hlist
    cases hlist

theorem cleanTrash_ok_elim (td : RPath) (fs fs' : Fs) (imm : Bool) (now : ChronoDateTime)
    (items : List TrashItem)
    (hlist : listItems td fs = .ok items)
    (hclean : cleanTrash td fs imm now = .ok fs') :
    fs' = items.foldl (cleanOne imm now) fs := by
  unfold cleanTrash at hclean
  rw [hlist] at hclean
  exact (Except.ok.inj hclean).symm

/-- The central purge fact: for a listed item, the non-immediate purge
removes its entry exactly when its deletion date is strictly before
`now`, and the immediate purge removes it unconditionally. -/
theorem cleanTrash_lookup (td : RPath) (fs fs' : Fs) (imm : Bool) (now : ChronoDateTime)
    (items : List TrashItem) (i : TrashItem) (o : FsObj)
    (hwf : WfFs fs)
    (hlist : listItems td fs = .ok items)
    (hi : i ∈ items)
    (hclean : cleanTrash td fs imm now = .ok fs')
    (ho : lookupFs fs (resolve i.path) = some o) :
    lookupFs fs' (resolve i.path) =
      if imm || dtLt i.deletion_date now then none else some o := by
  obtain ⟨hex, hitems⟩ := listItems_ok_elim td fs items hlist
  have hfs' := cleanTrash_ok_elim td fs fs' imm now items hlist hclean
  subst hitems
  rw [hfs']
  exact foldl_cleanOne_lookup imm now _ fs i hi o
    (listOf_resolved_nodup (resolve td) fs hwf)
    (fun j1 h1 j2 h2 => by
      rw [listOf_resolved_length (resolve td) fs j1 hwf h1,
        listOf_resolved_length (resolve td) fs j2 hwf h2])
    ho

/-- C1: for every trash state and every entry returned by `list()`, a
non-immediate purge permanently deletes the entry iff its
`deletion_date` is strictly earlier than the time taken at the start of
the purge; in particular an entry dated one second after `now` survives
(instantiated in the witness). -/
theorem c1_purge_grace_boundary (td : RPath) (fs fs' : Fs) (now : ChronoDateTime)
    (items : List TrashItem) (i : TrashItem)
    (hwf : WfFs fs)
    (hlist : listItems td fs = .ok items)
    (hi : i ∈ items)
    (hclean : cleanTrash td fs false now = .ok fs') :
    (fsExists fs' i.path = false ↔ dtLt i.deletion_date now = true) := by
  obtain ⟨hex, hitems⟩ := listItems_ok_elim td fs items hlist
  obtain ⟨hpath, hres, o, ho, hentry⟩ :=
    listOf_mem_facts (resolve td) fs i hwf (hitems ▸ hi)
  have hmain := cleanTrash_lookup td fs fs' false now items i o hwf hlist hi hclean
    (by rw [hres]; exact ho)
  simp only [Bool.false_or] at hmain
  unfold fsExists
  rw [hmain]
  cases hdt : dtLt i.deletion_date now <;> simp [hdt]

/-- A foreign/corrupt entry — one lacking the `original_path`
attribute, lacking the `deletion_date` attribute, or carrying an
unparsable `deletion_date` — is never turned into a `TrashItem` by the
scan. -/
theorem entryItem_none_of_foreign (T : List String) (n : String) (o : FsObj)
    (hfor : attrLookup o.attrs ORIGINAL_PATH_ATTR = none ∨
        attrLookup o.attrs DELETION_DATE_ATTR = none ∨
        (∀ s, attrLookup o.attrs DELETION_DATE_ATTR = some s → parseRfc3339 s = none)) :
    entryItem T (T ++ [n], o) = none := by
  simp only [entryItem, dropLead_append]
  by_cases hg1 : ORIGINAL_PATH_ATTR ∈ o.getErrs
  · simp [hg1]
  · cases ho1 : attrLookup o.attrs ORIGINAL_PATH_ATTR with
    | none => simp [hg1, ho1]
    | some op =>
      by_cases hg2 : DELETION_DATE_ATTR ∈ o.getErrs
      · simp [hg1, hg2, ho1]
      · rcases hfor with h1 | h2 | h3
        · rw [h1] at ho1
          cases ho1
        · simp [hg1, hg2, ho1, h2]
        · cases hd : attrLookup o.attrs DELETION_DATE_ATTR with
          | none => simp [hg1, hg2, ho1, hd]
          | some s => simp [hg1, hg2, ho1, hd, h3 s hd]

/-- No listed item can occupy the directory slot of an entry the scan
skips. -/
theorem listOf_not_mem_of_entryItem_none (T : List String) (fs : Fs) (n : String)
    (o : FsObj) (hwf : WfFs fs)
    (ho : lookupFs fs (T ++ [n]) = some o)
    (hnone : entryItem T (T ++ [n], o) = none) :
    ∀ i ∈ listOf T fs, i.path.comps ≠ T ++ [n] := by
  intro i hi hc
  obtain ⟨hpath, hres, o', ho', hent'⟩ := listOf_mem_facts T fs i hwf hi
  have hkey : T ++ [i.id] = T ++ [n] := by
    rw [← hc, hpath]
  rw [hkey] at ho' hent'
  rw [ho] at ho'
  rw [← Option.some.inj ho'] at hent'
  rw [hnone] at hent'
  cases hent'

theorem foldl_cleanOne_sublist (imm : Bool) (now : ChronoDateTime)
    (l : List TrashItem) (fs : Fs) :
    List.Sublist (l.foldl (cleanOne imm now) fs) fs := by
  induction l generalizing fs with
  | nil => exact List.Sublist.refl fs
  | cons i rest ih =>
    simp only [List.foldl_cons]
    apply List.Sublist.trans (ih (cleanOne imm now fs i))
    rcases cleanOne_cases imm now fs i with hc | hc
    · rw [hc]
      exact List.filter_sublist _
    · rw [hc]

theorem WfFs_of_sublist (fs fs2 : Fs) (h : List.Sublist fs2 fs) (hwf : WfFs fs) :
    WfFs fs2 := by
  refine ⟨(h.map Prod.fst).nodup hwf.1, ?_⟩
  intro k hk c hc
  exact hwf.2 k ((h.map Prod.fst).mem hk) c hc

/-- One non-immediate purge run from a wellformed state with an intact
trash directory: it succeeds, preserves the trash directory, preserves
wellformedness, and leaves any skipped (foreign) entry untouched. -/
theorem cleanTrash_foreign_step (td : RPath) (fs : Fs) (now : ChronoDateTime)
    (n : String) (o : FsObj)
    (hwf : WfFs fs) (hex : fsExists fs td = true)
    (ho : lookupFs fs (resolve td ++ [n]) = some o)
    (hnone : entryItem (resolve td) (resolve td ++ [n], o) = none) :
    cleanTrash td fs false now =
        .ok ((listOf (resolve td) fs).foldl (cleanOne false now) fs) ∧
      lookupFs ((listOf (resolve td) fs).foldl (cleanOne false now) fs)
          (resolve td ++ [n]) = some o ∧
      WfFs ((listOf (resolve td) fs).foldl (cleanOne false now) fs) ∧
      fsExists ((listOf (resolve td) fs).foldl (cleanOne false now) fs) td = true := by
  have hnint : ∀ i ∈ listOf (resolve td) fs,
      inSubtree (resolve i.path) (resolve td ++ [n]) = false := by
    intro i hi
    obtain ⟨hpath, hres, o', ho', hent'⟩ := listOf_mem_facts (resolve td) fs i hwf hi
    rw [hres]
    apply inSubtree_false_of_length_le _ _ (by simp)
    intro hc
    exact listOf_not_mem_of_entryItem_none (resolve td) fs n o hwf ho hnone i hi
      (by rw [hpath, ← hc])
  refine ⟨?_, ?_, ?_, ?_⟩
  · unfold cleanTrash listItems
    rw [if_pos hex]
  · rw [foldl_cleanOne_preserve _ _ _ _ _ hnint]
    exact ho
  · exact WfFs_of_sublist fs _ (foldl_cleanOne_sublist false now _ fs) hwf
  · unfold fsExists
    rw [foldl_cleanOne_preserve]
    · exact hex
    · intro i hi
      obtain ⟨hpath, hres, o', ho', hent'⟩ := listOf_mem_facts (resolve td) fs i hwf hi
      rw [hres]
      apply inSubtree_false_of_length_le _ _ (by simp)
      intro hc
      have := congrArg List.length hc
      simp at this

/-- C2: a filesystem object in the trash directory lacking the
`original_path` attribute or a parsable RFC 3339 `deletion_date`
attribute is never included in `list()` output and is never deleted by
`purge(false)`, no matter how many times either operation runs. -/
theorem c2_foreign_never_listed_never_deleted (td : RPath) (fs : Fs)
    (now : ChronoDateTime) (n : String) (o : FsObj)
    (hwf : WfFs fs) (hex : fsExists fs td = true)
    (ho : lookupFs fs (resolve td ++ [n]) = some o)
    (hfor : attrLookup o.attrs ORIGINAL_PATH_ATTR = none ∨
        attrLookup o.attrs DELETION_DATE_ATTR = none ∨
        (∀ s, attrLookup o.attrs DELETION_DATE_ATTR = some s → parseRfc3339 s = none)) :
    ∀ m : Nat,
      lookupFs (purgeIter td now m fs) (resolve td ++ [n]) = some o ∧
        ∀ i ∈ listOf (resolve td) (purgeIter td now m fs),
          i.path.comps ≠ resolve td ++ [n] := by
  have hnone := entryItem_none_of_foreign (resolve td) n o hfor
  have main : ∀ m : Nat, ∀ fs2 : Fs, WfFs fs2 → fsExists fs2 td = true →
      lookupFs fs2 (resolve td ++ [n]) = some o →
      lookupFs (purgeIter td now m fs2) (resolve td ++ [n]) = some o ∧
        WfFs (purgeIter td now m fs2) ∧
        fsExists (purgeIter td now m fs2) td = true := by
    intro m
    induction m with
    | zero => intro fs2 hwf2 hex2 ho2; exact ⟨ho2, hwf2, hex2⟩
    | succ m ihm =>
      intro fs2 hwf2 hex2 ho2
      obtain ⟨hc, hpres, hwf3, hex3⟩ :=
        cleanTrash_foreign_step td fs2 now n o hwf2 hex2 ho2 hnone
      unfold purgeIter
      rw [hc]
      exact ihm _ hwf3 hex3 hpres
  intro m
  obtain ⟨h1, h2, h3⟩ := main m fs hwf hex ho
  exact ⟨h1, listOf_not_mem_of_entryItem_none (resolve td) _ n o h2 h1 hnone⟩

def c2td : RPath := { absolute := true, comps := ["trash"] }

def c2now : ChronoDateTime := ⟨2024, 6, 1, 0, 0, 0, 0⟩

def c2bad : FsObj :=
  { isDir := false,
    attrs := [(ORIGINAL_PATH_ATTR, "/x"), (DELETION_DATE_ATTR, "garbage")] }

def c2fs : Fs := [(["trash"], { isDir := true, attrs := [] }), (["trash", "bad"], c2bad)]

/-- Witness for C2: an entry whose `deletion_date` attribute is the
unparsable string `"garbage"` survives a purge run and is absent from
the listing. -/
theorem c2_foreign_never_listed_never_deleted_witness :
    lookupFs (purgeIter c2td c2now 1 c2fs) (resolve c2td ++ ["bad"]) = some c2bad ∧
      ∀ i ∈ listOf (resolve c2td) (purgeIter c2td c2now 1 c2fs),
        i.path.comps ≠ resolve c2td ++ ["bad"] :=
  c2_foreign_never_listed_never_deleted c2td c2fs c2now "bad" c2bad
    (by decide) (by decide) (by decide)
    (Or.inr (Or.inr (fun s hs => by rw [← Option.some.inj hs]; decide))) 1

def c5td : RPath := { absolute := true, comps := ["trash"] }

def c5now : ChronoDateTime := ⟨2024, 6, 1, 0, 0, 0, 0⟩

def c5date : ChronoDateTime := ⟨2030, 1, 1, 0, 0, 0, 0⟩

def c5old : FsObj :=
  { isDir := false,
    attrs := [(ORIGINAL_PATH_ATTR, "/tmp/a"), (DELETION_DATE_ATTR, toRfc3339 c5date)] }

def c5bad : FsObj := { isDir := false, attrs := [] }

def c5fs : Fs :=
  [(["trash"], { isDir := true, attrs := [] }), (["trash", "old"], c5old),
    (["trash", "bad"], c5bad)]

def c5fsAfter : Fs :=
  [(["trash"], { isDir := true, attrs := [] }), (["trash", "bad"], c5bad)]

def c5item : TrashItem :=
  { id := "old", path := { absolute := true, comps := ["trash", "old"] },
    original_path := "/tmp/a", deletion_date := c5date }

/-- Counterexample to C5 as stated: at this concrete state the
immediate purge completes successfully, yet the attribute-less entry
`trash/bad` is still present in the trash directory afterwards — the
directory is not left empty and not every entry was deleted. -/
theorem c5_immediate_purge_counterexample :
    cleanTrash c5td c5fs true c5now = .ok c5fsAfter ∧
      lookupFs c5fsAfter ["trash", "bad"] = some c5bad ∧
      c5fsAfter ≠ [(["trash"], { isDir := true, attrs := [] })] :=
  ⟨by rfl, by rfl, by decide⟩

/-- C5 (amended): after a successful `purge(true)`, every entry
returned by `list()` has been permanently deleted regardless of its
deletion date, while entries the scan skips as foreign/corrupt are left
untouched — the directory is emptied only of well-formed entries. -/
theorem c5_immediate_purge_amended (td : RPath) (fs fs' : Fs) (now : ChronoDateTime)
    (items : List TrashItem)
    (hwf : WfFs fs)
    (hlist : listItems td fs = .ok items)
    (hclean : cleanTrash td fs true now = .ok fs') :
    (∀ i ∈ items, fsExists fs' i.path = false) ∧
      (∀ n o, lookupFs fs (resolve td ++ [n]) = some o →
        entryItem (resolve td) (resolve td ++ [n], o) = none →
        lookupFs fs' (resolve td ++ [n]) = some o) := by
  obtain ⟨hex, hitems⟩ := listItems_ok_elim td fs items hlist
  constructor
  · intro i hi
    obtain ⟨hpath, hres, o, ho, hent⟩ :=
      listOf_mem_facts (resolve td) fs i hwf (hitems ▸ hi)
    have hmain := cleanTrash_lookup td fs fs' true now items i o hwf hlist hi hclean
      (by rw [hres]; exact ho)
    simp only [Bool.true_or, if_true] at hmain
    unfold fsExists
    rw [hmain]
    rfl
  · intro n o ho hnone
    have hfs' := cleanTrash_ok_elim td fs fs' true now items hlist hclean
    rw [hfs', hitems, foldl_cleanOne_preserve]
    · exact ho
    · intro i hi
      obtain ⟨hpath, hres, o', ho', hent'⟩ := listOf_mem_facts (resolve td) fs i hwf hi
      rw [hres]
      apply inSubtree_false_of_length_le _ _ (by simp)
      intro hc
      exact listOf_not_mem_of_entryItem_none (resolve td) fs n o hwf ho hnone i hi
        (by rw [hpath, ← hc])

/-- Witness for the amended C5 at a concrete state: the dated entry
(whose deletion date is far in the future) is deleted by the immediate
purge, the foreign entry survives. -/
theorem c5_immediate_purge_amended_witness :
    (∀ i ∈ [c5item], fsExists c5fsAfter i.path = false) ∧
      (∀ n o, lookupFs c5fs (resolve c5td ++ [n]) = some o →
        entryItem (resolve c5td) (resolve c5td ++ [n], o) = none →
        lookupFs c5fsAfter (resolve c5td ++ [n]) = some o) :=
  c5_immediate_purge_amended c5td c5fs c5fsAfter c5now [c5item]
    (by decide) (by rfl) (by rfl)

/-- C3: restoring an item whose (possibly renamed) destination already
refers to an existing filesystem object fails with `PathAlreadyExists`
carrying that destination path, performs no overwrite, and leaves the
filesystem — in particular the trashed item and both of its attributes —
completely unchanged (the returned state is the input state). -/
theorem c3_restore_collision (td : RPath) (fs : Fs) (id : String)
    (rename : Option String) (op : String)
    (hex : fsExists fs (pushPath td id) = true)
    (hget : getAttrFs fs (pushPath td id) ORIGINAL_PATH_ATTR = .ok (some op))
    (hdest : fsExists fs (restoreDest op rename) = true) :
    restoreItemById td fs id rename =
      (.error (.pathAlreadyExists (renderPath (restoreDest op rename))), fs) := by
  unfold restoreItemById
  simp [hex, hget, hdest]

def c3td : RPath := { absolute := true, comps := ["trash"] }

def c3obj : FsObj :=
  { isDir := false,
    attrs := [(ORIGINAL_PATH_ATTR, "/tmp/a"),
      (DELETION_DATE_ATTR, "2024-01-02T03:04:05+00:00")] }

def c3fs : Fs :=
  [(["trash"], { isDir := true, attrs := [] }), (["trash", "u1"], c3obj),
    (["tmp"], { isDir := true, attrs := [] }),
    (["tmp", "a"], { isDir := false, attrs := [] })]

/-- Witness for C3: a concrete collision — `/tmp/a` exists again, so the
restore fails with `PathAlreadyExists "/tmp/a"` and the state is
returned unchanged, with the trashed entry and both attributes intact. -/
theorem c3_restore_collision_witness :
    restoreItemById c3td c3fs "u1" none =
      (.error (.pathAlreadyExists "/tmp/a"), c3fs) :=
  c3_restore_collision c3td c3fs "u1" none "/tmp/a" (by decide) (by rfl) (by decide)

/-- C10: `TrashItem::kind` returns `"Directory"` exactly when the
item's trash path currently refers to a directory, and `"File"` in every
other case — including when the path no longer exists on disk, where it
reports `"File"` instead of failing. -/
theorem c10_kind_live_stat (fs : Fs) (i : TrashItem) :
    (TrashItem.kind fs i = "Directory" ↔
      ∃ o, lookupFs fs (resolve i.path) = some o ∧ o.isDir = true) ∧
    (lookupFs fs (resolve i.path) = none → TrashItem.kind fs i = "File") := by
  unfold TrashItem.kind
  cases hl : lookupFs fs (resolve i.path) with
  | none => simp [hl]
  | some o => cases ho : o.isDir <;> simp [hl, ho]

def c10item : TrashItem :=
  { id := "gone", path := { absolute := true, comps := ["trash", "gone"] },
    original_path := "/tmp/z", deletion_date := ⟨2024, 1, 1, 0, 0, 0, 0⟩ }

/-- Witness for C10: on the empty filesystem the item's path has
vanished, and `kind` reports `"File"`. -/
theorem c10_kind_live_stat_witness :
    ((TrashItem.kind [] c10item = "Directory" ↔
        ∃ o, lookupFs [] (resolve c10item.path) = some o ∧ o.isDir = true) ∧
      (lookupFs [] (resolve c10item.path) = none →
        TrashItem.kind [] c10item = "File")) ∧
      TrashItem.kind [] c10item = "File" :=
  ⟨c10_kind_live_stat [] c10item, (c10_kind_live_stat [] c10item).2 (by rfl)⟩

theorem splitComps_no_slash (l : List Char) (cur : List Char) (h : '/' ∉ l) :
    splitComps cur l = [String.mk (cur.reverse ++ l)] := by
  induction l generalizing cur with
  | nil => simp [splitComps]
  | cons c rest ih =>
    simp only [List.mem_cons] at h
    push_neg at h
    have hc : ¬ c = '/' := fun hc => h.1 hc.symm
    simp only [splitComps, if_neg hc]
    rw [ih (c :: cur) h.2]
    simp

theorem strComps_plain (n : String) (hsl : '/' ∉ n.data) (hne : n ≠ "")
    (hdot : n ≠ ".") : strComps n = [n] := by
  unfold strComps
  rw [splitComps_no_slash n.data [] hsl]
  simp only [List.reverse_nil, List.nil_append]
  have hmk : String.mk n.data = n := rfl
  rw [hmk]
  simp [List.filter, hne, hdot]

theorem strIsAbs_plain (n : String) (hsl : '/' ∉ n.data) : strIsAbs n = false := by
  unfold strIsAbs
  cases hd : n.data with
  | nil => simp
  | cons c rest =>
    simp only [List.head?]
    have : ¬ c = '/' := by
      intro hc
      apply hsl
      rw [hd, hc]
      exact List.mem_cons_self _ _
    simp only [List.head?, decide_eq_false_iff_not]
    intro hc
    exact this (Option.some.inj hc)

/-- Counterexample to C7 as stated: for the stored original path
`/a/b` and the rename argument `c/d` (which contains a path separator),
`set_file_name` does not replace the final component of `/a/b` with the
literal name — the destination becomes `/a/c/d`, whose parent directory
`/a/c` differs from the original parent `/a`. -/
theorem c7_restore_rename_counterexample :
    restoreDest "/a/b" (some "c/d") ≠
        { absolute := true, comps := ["a", "c/d"] } ∧
      (restoreDest "/a/b" (some "c/d")).comps.dropLast ≠
        (parsePathStr "/a/b").comps.dropLast := by
  decide

/-- C7 (amended): when the rename argument is a single plain path
component (nonempty, no `/`, not `.`), and the stored original path does
not end in `..`, the restore destination is obtained by replacing only
the final component of the original path with the new name, preserving
the original parent directory. -/
theorem c7_restore_rename_amended (op n : String)
    (hsl : '/' ∉ n.data) (hne : n ≠ "") (hdot : n ≠ ".")
    (hlast : (parsePathStr op).comps.getLast? ≠ some "..") :
    restoreDest op (some n) =
        { absolute := (parsePathStr op).absolute,
          comps := (parsePathStr op).comps.dropLast ++ [n] } ∧
      (restoreDest op (some n)).comps.dropLast = (parsePathStr op).comps.dropLast := by
  have hcomp : restoreDest op (some n) =
      { absolute := (parsePathStr op).absolute,
        comps := (parsePathStr op).comps.dropLast ++ [n] } := by
    unfold restoreDest setFileName
    cases hfn : hasFileName (parsePathStr op) with
    | true =>
      simp only [if_true]
      unfold pushPath popPath
      rw [strIsAbs_plain n hsl]
      simp only [Bool.false_eq_true, if_false]
      rw [strComps_plain n hsl hne hdot]
    | false =>
      have hnil : (parsePathStr op).comps = [] := by
        unfold hasFileName at hfn
        cases hl : (parsePathStr op).comps.getLast? with
        | none => exact List.getLast?_eq_none_iff.mp hl
        | some c =>
          rw [hl] at hfn
          simp only [decide_eq_false_iff_not] at hfn
          push_neg at hfn
          exact absurd (by rw [← hfn]; exact hl) hlast
      simp only [Bool.false_eq_true, if_false]
      unfold pushPath
      rw [strIsAbs_plain n hsl]
      simp only [Bool.false_eq_true, if_false]
      rw [strComps_plain n hsl hne hdot, hnil]
      simp
  refine ⟨hcomp, ?_⟩
  rw [hcomp]
  simp

/-- Witness for the amended C7: renaming `/a/b` to the plain name `c`
yields `/a/c`, preserving the parent `/a`. -/
theorem c7_restore_rename_amended_witness :
    (restoreDest "/a/b" (some "c") =
        { absolute := (parsePathStr "/a/b").absolute,
          comps := (parsePathStr "/a/b").comps.dropLast ++ ["c"] } ∧
      (restoreDest "/a/b" (some "c")).comps.dropLast =
        (parsePathStr "/a/b").comps.dropLast) ∧
      restoreDest "/a/b" (some "c") = { absolute := true, comps := ["a", "c"] } :=
  ⟨c7_restore_rename_amended "/a/b" "c" (by decide) (by decide) (by decide)
      (by decide),
    by decide⟩


def c4td : RPath := { absolute := true, comps := ["trash"] }

def c4date : ChronoDateTime := ⟨2024, 7, 1, 0, 0, 0, 0⟩

def c4st : TMState :=
  { fs := [(["trash"], { isDir := true, attrs := [] }),
      (["tmp"], { isDir := true, attrs := [] }),
      (["tmp", "x"], { isDir := false, attrs := [] })],
    uuids := ["u1"] }

/-- Counterexample to C4 as stated: at this concrete state the first
input path cannot be canonicalized (it does not exist), and
`trash_items` aborts the whole batch with an I/O error, returning the
state unchanged — the second, perfectly trashable path is left
unprocessed instead of being processed to completion. -/
theorem c4_batch_failure_counterexample :
    trashItems c4td c4st
        [⟨parsePathStr "/tmp/missing", true⟩, ⟨parsePathStr "/tmp/x", true⟩] c4date =
      (.error .io, c4st) ∧
      lookupFs c4st.fs ["tmp", "x"] = some { isDir := false, attrs := [] } :=
  ⟨by rfl, by rfl⟩

/-- C4 (amended): `list()` (and hence `purge`, which consumes
`list_items`) skips an entry whose scan step fails — attribute read
error, missing attribute or unparsable date — and processes all other
entries unchanged; but multi-path `move_to_trash` skips only a path
whose canonical form is not UTF-8-representable, and a canonicalization
failure (like any attribute-write or rename failure, which the code
propagates with `?`) aborts the batch, leaving remaining paths
unprocessed. -/
theorem c4_batch_error_policy_amended :
    (∀ (T : List String) (l1 l2 : List (List String × FsObj)) (e : List String × FsObj),
      entryItem T e = none →
      listOf T (l1 ++ e :: l2) = listOf T (l1 ++ l2)) ∧
    (∀ (td : RPath) (st : TMState) (p : InPath) (rest : List InPath)
        (D : ChronoDateTime),
      fsExists st.fs p.path = false →
      trashItems td st (p :: rest) D = (.error .io, st)) ∧
    (∀ (td : RPath) (st : TMState) (p : InPath) (rest : List InPath)
        (D : ChronoDateTime),
      fsExists st.fs p.path = true → p.utf8 = false →
      trashItems td st (p :: rest) D = trashItems td st rest D) := by
  refine ⟨?_, ?_, ?_⟩
  · intro T l1 l2 e he
    simp [listOf, List.filterMap_append, List.filterMap_cons, he]
  · intro td st p rest D h
    unfold trashItems canonicalizeFs
    rw [h]
    simp
  · intro td st p rest D h1 h2
    conv_lhs => rw [trashItems]
    unfold canonicalizeFs
    rw [h1, h2]
    simp

def c4okObj : FsObj :=
  { isDir := false,
    attrs := [(ORIGINAL_PATH_ATTR, "/tmp/a"),
      (DELETION_DATE_ATTR, "2024-01-02T03:04:05+00:00")] }

def c4badObj : FsObj :=
  { isDir := false,
    attrs := [(ORIGINAL_PATH_ATTR, "/tmp/b")],
    getErrs := [ORIGINAL_PATH_ATTR] }

/-- Witness for the amended C4: a get-error entry is skipped by the
scan without affecting the other entry; a nonexistent path aborts
`trash_items`; a non-UTF-8 path is skipped. -/
theorem c4_batch_error_policy_amended_witness :
    (listOf ["trash"] ([] ++ (["trash", "bad"], c4badObj) :: [(["trash", "ok"], c4okObj)]) =
        listOf ["trash"] ([] ++ [(["trash", "ok"], c4okObj)])) ∧
      trashItems c4td c4st [⟨parsePathStr "/tmp/missing", true⟩] c4date =
        (.error .io, c4st) ∧
      trashItems c4td c4st [⟨parsePathStr "/tmp/x", false⟩] c4date =
        trashItems c4td c4st [] c4date :=
  ⟨c4_batch_error_policy_amended.1 ["trash"] [] [(["trash", "ok"], c4okObj)]
      (["trash", "bad"], c4badObj) (by rfl),
    c4_batch_error_policy_amended.2.1 c4td c4st ⟨parsePathStr "/tmp/missing", true⟩ []
      c4date (by decide),
    c4_batch_error_policy_amended.2.2 c4td c4st ⟨parsePathStr "/tmp/x", false⟩ []
      c4date (by decide) (by rfl)⟩

/-- C8: restore's attribute cleanup is not atomic — it removes
`original_path` before `deletion_date` and before the rename back.  If
removing `deletion_date` fails (here: the attribute is absent, which the
Linux xattr backend reports as an error), restore returns that error
with `original_path` already removed and the item still in the trash
directory; every subsequent `list()` skips the item as foreign/corrupt
and every subsequent restore of the same id fails with
`MissingAttribute`. -/
theorem c8_restore_cleanup_not_atomic (td : RPath) (fs : Fs) (id : String)
    (rename : Option String) (o : FsObj) (op : String)
    (hres : resolve (pushPath td id) = resolve td ++ [id])
    (ho : lookupFs fs (resolve td ++ [id]) = some o)
    (horig : attrLookup o.attrs ORIGINAL_PATH_ATTR = some op)
    (hand : (o.attrs.map Prod.fst).Nodup)
    (hg1 : ORIGINAL_PATH_ATTR ∉ o.getErrs)
    (hr1 : ORIGINAL_PATH_ATTR ∉ o.removeErrs)
    (hdd : attrLookup o.attrs DELETION_DATE_ATTR = none)
    (hdest : fsExists fs (restoreDest op rename) = false)
    (hpar : (match parentPath (restoreDest op rename) with
             | some par => !fsExists fs par
             | none => false) = false)
    (hwf : WfFs fs) :
    restoreItemById td fs id rename =
        (.error (.xattr (.removeFail DELETION_DATE_ATTR)),
          updateFs fs (resolve td ++ [id])
            (fun b => { b with attrs := attrRemove b.attrs ORIGINAL_PATH_ATTR })) ∧
      lookupFs (updateFs fs (resolve td ++ [id])
            (fun b => { b with attrs := attrRemove b.attrs ORIGINAL_PATH_ATTR }))
          (resolve td ++ [id]) =
        some { o with attrs := attrRemove o.attrs ORIGINAL_PATH_ATTR } ∧
      (∀ i ∈ listOf (resolve td)
          (updateFs fs (resolve td ++ [id])
            (fun b => { b with attrs := attrRemove b.attrs ORIGINAL_PATH_ATTR })),
        i.path.comps ≠ resolve td ++ [id]) ∧
      ∀ rename2 : Option String,
        restoreItemById td
            (updateFs fs (resolve td ++ [id])
              (fun b => { b with attrs := attrRemove b.attrs ORIGINAL_PATH_ATTR }))
            id rename2 =
          (.error (.missingAttribute ORIGINAL_PATH_ATTR id),
            updateFs fs (resolve td ++ [id])
              (fun b => { b with attrs := attrRemove b.attrs ORIGINAL_PATH_ATTR })) := by
  have hlook1 : lookupFs (updateFs fs (resolve td ++ [id])
      (fun b => { b with attrs := attrRemove b.attrs ORIGINAL_PATH_ATTR }))
      (resolve td ++ [id]) =
      some { o with attrs := attrRemove o.attrs ORIGINAL_PATH_ATTR } := by
    rw [lookupFs_updateFs, if_pos rfl, ho]
    rfl
  have hremoved : attrLookup (attrRemove o.attrs ORIGINAL_PATH_ATTR)
      ORIGINAL_PATH_ATTR = none := attrLookup_attrRemove_self o.attrs _ hand
  refine ⟨?_, hlook1, ?_, ?_⟩
  · unfold restoreItemById
    simp only [fsExists, hres, ho, Option.isSome_some, Bool.not_true,
      Bool.false_eq_true, if_false]
    unfold getAttrFs removeAttrFs
    simp only [hres, ho]
    rw [if_neg hg1, horig]
    have hdest2 : (lookupFs fs (resolve (restoreDest op rename))).isSome = false := hdest
    have hpar2 : (match parentPath (restoreDest op rename) with
        | some par => !(lookupFs fs (resolve par)).isSome
        | none => false) = false := hpar
    rw [if_neg hr1]
    simp only [horig, hdest2, Bool.false_eq_true, if_false, hpar2,
      lookupFs_updateFs, if_pos rfl, ho, Option.map_some]
    by_cases hr2 : DELETION_DATE_ATTR ∈ o.removeErrs
    · simp [hr2]
    · simp [hr2,
        attrLookup_attrRemove_ne o.attrs ORIGINAL_PATH_ATTR DELETION_DATE_ATTR
          (by decide),
        hdd]
  · intro i hi
    have hwf1 : WfFs (updateFs fs (resolve td ++ [id])
        (fun b => { b with attrs := attrRemove b.attrs ORIGINAL_PATH_ATTR })) := by
      constructor
      · rw [keys_updateFs]
        exact hwf.1
      · rw [keys_updateFs]
        exact hwf.2
    exact listOf_not_mem_of_entryItem_none (resolve td) _ id _ hwf1 hlook1
      (entryItem_none_of_foreign _ id _ (Or.inl hremoved)) i hi
  · intro rename2
    unfold restoreItemById
    simp only [fsExists, hres, hlook1, Option.isSome_some, Bool.not_true,
      Bool.false_eq_true, if_false]
    unfold getAttrFs
    simp only [hres, hlook1]
    rw [if_neg hg1]
    simp [hremoved]

def c8td : RPath := { absolute := true, comps := ["trash"] }

def c8obj : FsObj := { isDir := false, attrs := [(ORIGINAL_PATH_ATTR, "/tmp/a")] }

def c8fs : Fs :=
  [(["trash"], { isDir := true, attrs := [] }), (["trash", "u1"], c8obj),
    (["tmp"], { isDir := true, attrs := [] })]

def c8fs1 : Fs :=
  updateFs c8fs ["trash", "u1"]
    (fun b => { b with attrs := attrRemove b.attrs ORIGINAL_PATH_ATTR })

/-- Witness for C8: entry `u1` carries only `original_path`; restoring
it strips that attribute, fails on the `deletion_date` removal, and
leaves a stranded entry that is never listed and can no longer be
restored. -/
theorem c8_restore_cleanup_not_atomic_witness :
    restoreItemById c8td c8fs "u1" none =
        (.error (.xattr (.removeFail DELETION_DATE_ATTR)), c8fs1) ∧
      lookupFs c8fs1 ["trash", "u1"] =
        some { c8obj with attrs := attrRemove c8obj.attrs ORIGINAL_PATH_ATTR } ∧
      (∀ i ∈ listOf ["trash"] c8fs1, i.path.comps ≠ ["trash", "u1"]) ∧
      ∀ rename2 : Option String,
        restoreItemById c8td c8fs1 "u1" rename2 =
          (.error (.missingAttribute ORIGINAL_PATH_ATTR "u1"), c8fs1) :=
  c8_restore_cleanup_not_atomic c8td c8fs "u1" none c8obj "/tmp/a"
    (by decide) (by rfl) (by rfl) (by decide) (by decide) (by decide) (by rfl)
    (by decide) (by decide) (by decide)

theorem lookupFs_remap_src (fs : Fs) (s d : List String) (hne : d ≠ s) :
    lookupFs (fs.map (fun e => if e.1 = s then (d, e.2) else e)) s = none := by
  induction fs with
  | nil => rfl
  | cons e rest ih =>
    by_cases he : e.1 = s
    · simp only [List.map_cons, if_pos he, lookupFs, if_neg hne]
      exact ih
    · simp only [List.map_cons, if_neg he, lookupFs, if_neg he]
      exact ih

theorem lookupFs_remap_dst (fs : Fs) (s d : List String) (o : FsObj)
    (ho : lookupFs fs s = some o) (hd : lookupFs fs d = none) :
    lookupFs (fs.map (fun e => if e.1 = s then (d, e.2) else e)) d = some o := by
  induction fs with
  | nil => simp [lookupFs] at ho
  | cons e rest ih =>
    simp only [lookupFs] at ho hd
    by_cases he : e.1 = s
    · rw [if_pos he] at ho
      simp only [List.map_cons, if_pos he, lookupFs, if_pos rfl]
      exact ho
    · rw [if_neg he] at ho
      have hed : ¬ e.1 = d := by
        intro h
        rw [if_pos h] at hd
        cases hd
      rw [if_neg hed] at hd
      simp only [List.map_cons, if_neg he, lookupFs, if_neg hed]
      exact ih ho hd

theorem renameFs_single (fs : Fs) (src dst : RPath) (o : FsObj)
    (ho : lookupFs fs (resolve src) = some o)
    (hsub : ∀ k ∈ fs.map Prod.fst,
      inSubtree (resolve src) k = true → k = resolve src) :
    renameFs fs src dst =
      .ok (fs.map (fun e => if e.1 = resolve src then (resolve dst, e.2) else e)) := by
  unfold renameFs
  simp only [ho, Option.isSome_some, if_true]
  congr 1
  apply List.map_congr_left
  intro e hem
  by_cases hk : e.1 = resolve src
  · rw [if_pos (by rw [hk]; exact inSubtree_self (resolve src)), if_pos hk, hk]
    simp [List.drop_length]
  · by_cases hst : inSubtree (resolve src) e.1 = true
    · exact absurd (hsub e.1 (List.mem_map_of_mem Prod.fst hem) hst) hk
    · rw [if_neg (by rw [Bool.eq_false_iff.mpr hst]; simp), if_neg hk]

/-- `trash_dir.join(id)` with `id = "../" ++ name` parses the id as a
relative path, so the joined path resolves to the trash directory's
parent with `name` appended — outside the trash directory. -/
theorem c9_push_escape (td : RPath) (name : String)
    (hsl : '/' ∉ name.data) (hne : name ≠ "") (hdot : name ≠ ".") (hdd : name ≠ "..") :
    resolve (pushPath td ("../" ++ name)) = (resolve td).dropLast ++ [name] := by
  have hdata : ("../" ++ name).data = '.' :: '.' :: '/' :: name.data := by
    have : ("../" ++ name).data = "../".data ++ name.data := String.data_append "../" name
    rw [this]
    rfl
  have habs : strIsAbs ("../" ++ name) = false := by
    unfold strIsAbs
    rw [hdata]
    simp
  have hcomps : strComps ("../" ++ name) = [".."] ++ strComps name := by
    unfold strComps
    rw [hdata]
    have hsplit : splitComps [] ('.' :: '.' :: '/' :: name.data) =
        ".." :: splitComps [] name.data := by
      simp [splitComps]
    rw [hsplit]
    simp [List.filter]
  unfold pushPath
  rw [habs]
  simp only [Bool.false_eq_true, if_false]
  rw [hcomps, strComps_plain name hsl hne hdot]
  unfold resolve
  rw [← List.append_assoc]
  rw [resolveComps_append (td.comps ++ [".."]) [name] []]
  rw [resolveComps_append td.comps [".."] []]
  have h1 : resolveComps (resolveComps [] td.comps) [".."] =
      (resolveComps [] td.comps).dropLast := by
    simp [resolveComps]
  rw [h1]
  simp [resolveComps, hdd]

/-- C9: `restore_item_by_id` resolves the item as the raw join
`trash_dir/id` without validating that `id` is a plain file name.  For
`id = "../" ++ name` the item path denotes an object outside the trash
directory (second conjunct), and when that object exists restore reads
its `original_path`/`deletion_date` attributes, strips them, and moves
the outside object to the recorded destination. -/
theorem c9_restore_escapes_trash (td : RPath) (fs : Fs) (name : String)
    (rename : Option String) (o : FsObj) (op ds : String)
    (hsl : '/' ∉ name.data) (hne : name ≠ "") (hdot : name ≠ ".") (hdd : name ≠ "..")
    (hT : resolve td ≠ [])
    (hnl : (resolve td).getLast? ≠ some name)
    (ho : lookupFs fs ((resolve td).dropLast ++ [name]) = some o)
    (hsub : ∀ k ∈ fs.map Prod.fst,
      inSubtree ((resolve td).dropLast ++ [name]) k = true →
      k = (resolve td).dropLast ++ [name])
    (horig : attrLookup o.attrs ORIGINAL_PATH_ATTR = some op)
    (hg1 : ORIGINAL_PATH_ATTR ∉ o.getErrs)
    (hr1 : ORIGINAL_PATH_ATTR ∉ o.removeErrs)
    (hr2 : DELETION_DATE_ATTR ∉ o.removeErrs)
    (hdate : attrLookup o.attrs DELETION_DATE_ATTR = some ds)
    (hdest : fsExists fs (restoreDest op rename) = false)
    (hpar : (match parentPath (restoreDest op rename) with
             | some par => !fsExists fs par
             | none => false) = false) :
    resolve (pushPath td ("../" ++ name)) = (resolve td).dropLast ++ [name] ∧
      inSubtree (resolve td) ((resolve td).dropLast ++ [name]) = false ∧
      (restoreItemById td fs ("../" ++ name) rename).1 = .ok () ∧
      lookupFs (restoreItemById td fs ("../" ++ name) rename).2
          ((resolve td).dropLast ++ [name]) = none ∧
      lookupFs (restoreItemById td fs ("../" ++ name) rename).2
          (resolve (restoreDest op rename)) =
        some { o with attrs := attrRemove (attrRemove o.attrs ORIGINAL_PATH_ATTR) DELETION_DATE_ATTR } := by
  have hres := c9_push_escape td name hsl hne hdot hdd
  have houtside : inSubtree (resolve td) ((resolve td).dropLast ++ [name]) = false := by
    apply inSubtree_false_of_length_le
    · have hTpos : 0 < (resolve td).length := List.length_pos.mpr hT
      simp only [List.length_append, List.length_dropLast, List.length_cons,
        List.length_nil]
      omega
    · intro hc
      apply hnl
      have hTlast : (resolve td).dropLast ++ [(resolve td).getLast hT] = resolve td :=
        List.dropLast_append_getLast hT
      have h2 : (resolve td).dropLast ++ [name] =
          (resolve td).dropLast ++ [(resolve td).getLast hT] := by
        rw [hTlast]
        exact hc
      have h4 : [name] = [(resolve td).getLast hT] := List.append_inj_right h2 rfl
      have h5 : name = (resolve td).getLast hT := by
        injection h4
      rw [List.getLast?_eq_getLast _ hT, h5]
  -- abbreviations
  set s := (resolve td).dropLast ++ [name] with hs
  have hdn : lookupFs fs (resolve (restoreDest op rename)) = none := by
    cases hx : lookupFs fs (resolve (restoreDest op rename)) with
    | none => rfl
    | some v =>
      unfold fsExists at hdest
      rw [hx] at hdest
      cases hdest
  have hds : resolve (restoreDest op rename) ≠ s := by
    intro h
    rw [h, ho] at hdn
    cases hdn
  -- the two attribute removals
  have hlook1 : lookupFs (updateFs fs s
      (fun b => { b with attrs := attrRemove b.attrs ORIGINAL_PATH_ATTR })) s =
      some { o with attrs := attrRemove o.attrs ORIGINAL_PATH_ATTR } := by
    rw [lookupFs_updateFs, if_pos rfl, ho]
    rfl
  have hlook2 : lookupFs (updateFs (updateFs fs s
      (fun b => { b with attrs := attrRemove b.attrs ORIGINAL_PATH_ATTR })) s
      (fun b => { b with attrs := attrRemove b.attrs DELETION_DATE_ATTR })) s =
      some { o with attrs := attrRemove (attrRemove o.attrs ORIGINAL_PATH_ATTR) DELETION_DATE_ATTR } := by
    rw [lookupFs_updateFs, if_pos rfl, hlook1]
    rfl
  have hdn2 : lookupFs (updateFs (updateFs fs s
      (fun b => { b with attrs := attrRemove b.attrs ORIGINAL_PATH_ATTR })) s
      (fun b => { b with attrs := attrRemove b.attrs DELETION_DATE_ATTR }))
      (resolve (restoreDest op rename)) = none := by
    rw [lookupFs_updateFs, if_neg hds, lookupFs_updateFs, if_neg hds]
    exact hdn
  have hkeys2 : (updateFs (updateFs fs s
      (fun b => { b with attrs := attrRemove b.attrs ORIGINAL_PATH_ATTR })) s
      (fun b => { b with attrs := attrRemove b.attrs DELETION_DATE_ATTR })).map Prod.fst =
      fs.map Prod.fst := by
    rw [keys_updateFs, keys_updateFs]
  have hrename := renameFs_single (updateFs (updateFs fs s
      (fun b => { b with attrs := attrRemove b.attrs ORIGINAL_PATH_ATTR })) s
      (fun b => { b with attrs := attrRemove b.attrs DELETION_DATE_ATTR }))
      (pushPath td ("../" ++ name)) (restoreDest op rename)
      { o with attrs := attrRemove (attrRemove o.attrs ORIGINAL_PATH_ATTR) DELETION_DATE_ATTR }
      (by rw [hres]; exact hlook2)
      (by rw [hres]; intro k hk hst; rw [hkeys2] at hk; exact hsub k hk hst)
  rw [hres] at hrename
  -- run the restore
  have hrun : restoreItemById td fs ("../" ++ name) rename =
      (.ok (), (updateFs (updateFs fs s
          (fun b => { b with attrs := attrRemove b.attrs ORIGINAL_PATH_ATTR })) s
          (fun b => { b with attrs := attrRemove b.attrs DELETION_DATE_ATTR })).map
        (fun e => if e.1 = s then (resolve (restoreDest op rename), e.2) else e)) := by
    unfold restoreItemById
    simp only [fsExists, hres, ho, Option.isSome_some, Bool.not_true,
      Bool.false_eq_true, if_false]
    unfold getAttrFs removeAttrFs
    simp only [hres, ho]
    rw [if_neg hg1, horig]
    have hdest2 : (lookupFs fs (resolve (restoreDest op rename))).isSome = false := hdest
    have hpar2 : (match parentPath (restoreDest op rename) with
        | some par => !(lookupFs fs (resolve par)).isSome
        | none => false) = false := hpar
    rw [if_neg hr1]
    simp only [horig, hdest2, Bool.false_eq_true, if_false, hpar2, hlook1]
    rw [if_neg (show DELETION_DATE_ATTR ∉
      ({ o with attrs := attrRemove o.attrs ORIGINAL_PATH_ATTR } : FsObj).removeErrs
      from hr2)]
    rw [show attrLookup ({ o with attrs := attrRemove o.attrs ORIGINAL_PATH_ATTR } : FsObj).attrs DELETION_DATE_ATTR =
      some ds from by
        rw [show ({ o with attrs := attrRemove o.attrs ORIGINAL_PATH_ATTR } :
          FsObj).attrs = attrRemove o.attrs ORIGINAL_PATH_ATTR from rfl]
        rw [attrLookup_attrRemove_ne o.attrs ORIGINAL_PATH_ATTR DELETION_DATE_ATTR
          (by decide)]
        exact hdate]
    simp only []
    rw [hrename]
  refine ⟨hres, houtside, ?_, ?_, ?_⟩
  · rw [hrun]
  · rw [hrun]
    exact lookupFs_remap_src _ s (resolve (restoreDest op rename)) hds
  · rw [hrun]
    exact lookupFs_remap_dst _ s (resolve (restoreDest op rename)) _ hlook2 hdn2

def c9td : RPath := { absolute := true, comps := ["trash"] }

def c9obj : FsObj :=
  { isDir := false,
    attrs := [(ORIGINAL_PATH_ATTR, "/tmp/v"),
      (DELETION_DATE_ATTR, "2024-01-02T03:04:05+00:00")] }

def c9fs : Fs :=
  [(["trash"], { isDir := true, attrs := [] }), (["victim"], c9obj),
    (["tmp"], { isDir := true, attrs := [] })]

/-- Witness for C9: with trash directory `/trash`, the id `../victim`
names `/victim`; restore moves `/victim` to `/tmp/v` after stripping its
attributes. -/
theorem c9_restore_escapes_trash_witness :
    resolve (pushPath c9td ("../" ++ "victim")) = ["victim"] ∧
      inSubtree (resolve c9td) ["victim"] = false ∧
      (restoreItemById c9td c9fs ("../" ++ "victim") none).1 = .ok () ∧
      lookupFs (restoreItemById c9td c9fs ("../" ++ "victim") none).2 ["victim"] = none ∧
      lookupFs (restoreItemById c9td c9fs ("../" ++ "victim") none).2
          (resolve (restoreDest "/tmp/v" none)) =
        some { c9obj with attrs := attrRemove (attrRemove c9obj.attrs ORIGINAL_PATH_ATTR) DELETION_DATE_ATTR } :=
  c9_restore_escapes_trash c9td c9fs "victim" none c9obj "/tmp/v"
    "2024-01-02T03:04:05+00:00"
    (by decide) (by decide) (by decide) (by decide) (by decide) (by decide)
    (by rfl) (by decide) (by rfl) (by decide) (by decide) (by decide) (by rfl)
    (by decide) (by decide)

theorem digitVal_digitCh (d : Nat) (h : d < 10) : digitVal (digitCh d) = d := by
  interval_cases d <;> rfl

theorem isDigitCh_digitCh (d : Nat) (h : d < 10) : isDigitCh (digitCh d) = true := by
  interval_cases d <;> rfl

theorem read2_pad2 (n : Nat) (r : List Char) (h : n < 100) :
    read2 (pad2 n ++ r) = some (n, r) := by
  have h1 : n / 10 < 10 := by omega
  have h2 : n % 10 < 10 := by omega
  simp only [pad2, List.cons_append, List.nil_append, read2,
    isDigitCh_digitCh _ h1, isDigitCh_digitCh _ h2, Bool.and_self, if_true,
    digitVal_digitCh _ h1, digitVal_digitCh _ h2]
  congr 1
  congr 1
  omega

theorem read4_pad4 (n : Nat) (r : List Char) (h : n < 10000) :
    read4 (pad4 n ++ r) = some (n, r) := by
  have h1 : n / 1000 < 10 := by omega
  have h2 : n / 100 % 10 < 10 := by omega
  have h3 : n / 10 % 10 < 10 := by omega
  have h4 : n % 10 < 10 := by omega
  simp only [pad4, List.cons_append, List.nil_append, read4,
    isDigitCh_digitCh _ h1, isDigitCh_digitCh _ h2, isDigitCh_digitCh _ h3,
    isDigitCh_digitCh _ h4, Bool.and_self, if_true,
    digitVal_digitCh _ h1, digitVal_digitCh _ h2, digitVal_digitCh _ h3,
    digitVal_digitCh _ h4]
  congr 1
  congr 1
  omega

theorem expectCh_cons (c : Char) (r : List Char) : expectCh c (c :: r) = some r := by
  simp [expectCh]

theorem expectSep_T (r : List Char) : expectSep ('T' :: r) = some r := by
  simp [expectSep, sepOk]

theorem readDigits_append (l r : List Char)
    (hl : ∀ c ∈ l, isDigitCh c = true)
    (hr : ∀ c, r.head? = some c → isDigitCh c = false) :
    readDigits (l ++ r) = (l.map digitVal, r) := by
  induction l with
  | nil =>
    simp only [List.nil_append, List.map_nil]
    cases r with
    | nil => rfl
    | cons c rest =>
      simp only [readDigits, hr c rfl, Bool.false_eq_true, if_false]
  | cons c cs ih =>
    simp only [List.cons_append, readDigits,
      hl c (List.mem_cons_self c cs), if_true, List.map_cons]
    rw [show cs.append r = cs ++ r from rfl, ih (fun d hd => hl d (List.mem_cons_of_mem c hd))]

def offsetChars : List Char := ['+', '0', '0', ':', '0', '0']

theorem map_digitVal_pad3 (q : Nat) (h : q < 1000) :
    (pad3 q).map digitVal = [q / 100, q / 10 % 10, q % 10] := by
  have h1 : q / 100 < 10 := by omega
  have h2 : q / 10 % 10 < 10 := by omega
  have h3 : q % 10 < 10 := by omega
  simp [pad3, digitVal_digitCh _ h1, digitVal_digitCh _ h2, digitVal_digitCh _ h3]

theorem pad3_digits (q : Nat) (h : q < 1000) :
    ∀ c ∈ pad3 q, isDigitCh c = true := by
  have h1 : q / 100 < 10 := by omega
  have h2 : q / 10 % 10 < 10 := by omega
  have h3 : q % 10 < 10 := by omega
  intro c hc
  simp only [pad3, List.mem_cons, List.not_mem_nil, or_false] at hc
  rcases hc with hc | hc | hc <;> rw [hc]
  · exact isDigitCh_digitCh _ h1
  · exact isDigitCh_digitCh _ h2
  · exact isDigitCh_digitCh _ h3

theorem pad6_digits (q : Nat) (h : q < 1000000) :
    ∀ c ∈ pad6 q, isDigitCh c = true := by
  intro c hc
  rcases List.mem_append.mp hc with hc | hc
  · exact pad3_digits (q / 1000) (by omega) c hc
  · exact pad3_digits (q % 1000) (by omega) c hc

theorem pad9_digits (q : Nat) (h : q < 1000000000) :
    ∀ c ∈ pad9 q, isDigitCh c = true := by
  intro c hc
  rcases List.mem_append.mp hc with hc | hc
  · exact pad3_digits (q / 1000000) (by omega) c hc
  · exact pad6_digits (q % 1000000) (by omega) c hc

theorem foldl_digits3 (acc q : Nat) (_h : q < 1000) :
    List.foldl (fun a d => a * 10 + d) acc [q / 100, q / 10 % 10, q % 10] =
      acc * 1000 + q := by
  simp only [List.foldl]
  omega

theorem foldl_pad3 (acc q : Nat) (h : q < 1000) :
    List.foldl (fun a d => a * 10 + d) acc ((pad3 q).map digitVal) =
      acc * 1000 + q := by
  rw [map_digitVal_pad3 q h]
  exact foldl_digits3 acc q h

theorem foldl_pad6 (acc q : Nat) (h : q < 1000000) :
    List.foldl (fun a d => a * 10 + d) acc ((pad6 q).map digitVal) =
      acc * 1000000 + q := by
  unfold pad6
  rw [List.map_append, List.foldl_append]
  rw [foldl_pad3 acc (q / 1000) (by omega)]
  rw [foldl_pad3 _ (q % 1000) (by omega)]
  omega

theorem foldl_pad9 (acc q : Nat) (h : q < 1000000000) :
    List.foldl (fun a d => a * 10 + d) acc ((pad9 q).map digitVal) =
      acc * 1000000000 + q := by
  unfold pad9
  rw [List.map_append, List.foldl_append]
  rw [foldl_pad3 acc (q / 1000000) (by omega)]
  rw [foldl_pad6 _ (q % 1000000) (by omega)]
  omega

theorem offset_head_not_digit :
    ∀ c : Char, offsetChars.head? = some c → isDigitCh c = false := by
  intro c hc
  rw [← Option.some.inj hc]
  rfl

theorem fracValue_eq (ds : List Nat) (h : ds.length ≤ 9) :
    fracValue ds =
      ds.foldl (fun a d => a * 10 + d) 0 * 10 ^ (9 - ds.length) := by
  unfold fracValue
  rw [List.take_of_length_le h, min_eq_left h]

theorem length_pad3 (q : Nat) : (pad3 q).length = 3 := rfl

theorem length_pad6 (q : Nat) : (pad6 q).length = 6 := by
  simp [pad6, length_pad3]

theorem length_pad9 (q : Nat) : (pad9 q).length = 9 := by
  simp [pad9, length_pad3, length_pad6]

theorem readFrac_pads (l : List Char) (v : Nat)
    (hdig : ∀ c ∈ l, isDigitCh c = true)
    (hnn : l ≠ [])
    (hfv : fracValue (l.map digitVal) = v) :
    readFrac (('.' :: l) ++ offsetChars) = some (v, offsetChars) := by
  simp only [List.cons_append, readFrac]
  rw [readDigits_append l offsetChars hdig offset_head_not_digit]
  cases hl : l with
  | nil => exact absurd hl hnn
  | cons c cs =>
    rw [hl] at hfv
    simp only [List.map_cons]
    rw [← List.map_cons digitVal c cs, hfv]

theorem readFrac_fracChars (ns : Nat) (h : ns < 1000000000) :
    readFrac (fracChars ns ++ offsetChars) = some (ns, offsetChars) := by
  unfold fracChars
  by_cases h0 : ns = 0
  · subst h0
    simp only [if_pos rfl, List.nil_append]
    rfl
  · rw [if_neg h0]
    by_cases h1 : ns % 1000000 = 0
    · rw [if_pos h1]
      have hq : ns / 1000000 < 1000 := by omega
      apply readFrac_pads _ ns (pad3_digits _ hq) (by simp [pad3])
      rw [fracValue_eq _ (by simp [length_pad3]), foldl_pad3 0 _ hq]
      simp only [List.length_map, length_pad3]
      omega
    · rw [if_neg h1]
      by_cases h2 : ns % 1000 = 0
      · rw [if_pos h2]
        have hq : ns / 1000 < 1000000 := by omega
        apply readFrac_pads _ ns (pad6_digits _ hq) (by simp [pad6, pad3])
        rw [fracValue_eq _ (by simp [length_pad6]), foldl_pad6 0 _ hq]
        simp only [List.length_map, length_pad6]
        omega
      · rw [if_neg h2]
        apply readFrac_pads _ ns (pad9_digits _ h) (by simp [pad9, pad6, pad3])
        rw [fracValue_eq _ (by simp [length_pad9]), foldl_pad9 0 _ h]
        simp only [List.length_map, length_pad9]
        omega

theorem daysInMonth_le (y m : Nat) : daysInMonth y m ≤ 31 := by
  unfold daysInMonth
  by_cases h2 : m = 2
  · rw [if_pos h2]
    cases isLeapYear y <;> simp
  · rw [if_neg h2]
    by_cases h3 : (m = 4 || m = 6 || m = 9 || m = 11) = true
    · rw [if_pos h3]
      omega
    · rw [if_neg h3]

theorem readOffset_offsetChars : readOffset offsetChars = some () := rfl

theorem mkValid_eq (dt : ChronoDateTime)
    (hmo1 : 1 ≤ dt.month) (hmo2 : dt.month ≤ 12) (hd1 : 1 ≤ dt.day)
    (hd2 : dt.day ≤ daysInMonth dt.year dt.month) (hh : dt.hour ≤ 23)
    (hmi : dt.minute ≤ 59) (hs : dt.second ≤ 59) (hns : dt.nanos < 1000000000)
    (hy : dt.year ≤ 9999) :
    mkValid dt.year dt.month dt.day dt.hour dt.minute dt.second dt.nanos = some dt := by
  unfold mkValid
  rw [if_pos ⟨hmo1, hmo2, hd1, hd2, hh, hmi, hs, hns, hy⟩]

/-- The RFC 3339 write performed at trash time followed by the RFC 3339
parse performed at list time round-trips the timestamp exactly. -/
theorem parse_toRfc3339 (dt : ChronoDateTime) (h : isValidDT dt = true) :
    parseRfc3339 (toRfc3339 dt) = some dt := by
  unfold isValidDT at h
  simp only [Bool.and_eq_true, decide_eq_true_eq] at h
  obtain ⟨⟨⟨⟨⟨⟨⟨⟨hmo1, hmo2⟩, hd1⟩, hd2⟩, hh⟩, hmi⟩, hs⟩, hns⟩, hy⟩ := h
  have hdm : dt.day < 100 :=
    lt_of_le_of_lt (le_trans hd2 (daysInMonth_le dt.year dt.month)) (by omega)
  show parseRfc3339Chars (rfc3339Chars dt) = some dt
  unfold rfc3339Chars parseRfc3339Chars
  rw [show (['+', '0', '0', ':', '0', '0'] : List Char) = offsetChars from rfl]
  rw [read4_pad4 dt.year _ (by omega)]
  simp only []
  rw [expectCh_cons]
  simp only []
  rw [read2_pad2 dt.month _ (by omega)]
  simp only []
  rw [expectCh_cons]
  simp only []
  rw [read2_pad2 dt.day _ hdm]
  simp only []
  rw [expectSep_T]
  simp only []
  rw [read2_pad2 dt.hour _ (by omega)]
  simp only []
  rw [expectCh_cons]
  simp only []
  rw [read2_pad2 dt.minute _ (by omega)]
  simp only []
  rw [expectCh_cons]
  simp only []
  rw [read2_pad2 dt.second _ (by omega)]
  simp only []
  rw [readFrac_fracChars dt.nanos hns]
  simp only []
  rw [readOffset_offsetChars]
  simp only []
  exact mkValid_eq dt hmo1 hmo2 hd1 hd2 hh hmi hs hns hy

theorem resolve_push_plain (td : RPath) (u : String) (hc : strComps u = [u])
    (ha : strIsAbs u = false) (hdd : u ≠ "..") :
    resolve (pushPath td u) = resolve td ++ [u] := by
  unfold pushPath
  rw [ha]
  simp only [Bool.false_eq_true, if_false]
  unfold resolve
  rw [hc, resolveComps_append td.comps [u] []]
  simp [resolveComps, hdd]

theorem c6_trash_run (td : RPath) (st : TMState) (p : RPath) (D : ChronoDateTime)
    (o : FsObj)
    (ho : lookupFs st.fs (resolve p) = some o)
    (hset1 : ORIGINAL_PATH_ATTR ∉ o.setErrs)
    (hset2 : DELETION_DATE_ATTR ∉ o.setErrs)
    (hsub : ∀ k ∈ st.fs.map Prod.fst,
      inSubtree (resolve p) k = true → k = resolve p)
    (hu : strComps (nextUuid st) = [nextUuid st]) (hua : strIsAbs (nextUuid st) = false)
    (hudd : nextUuid st ≠ "..") :
    trashItems td st [⟨p, true⟩] D =
      (.ok (),
        { fs := (updateFs (updateFs st.fs (resolve p)
              (fun b => { b with attrs := attrSet b.attrs ORIGINAL_PATH_ATTR (renderPath { absolute := true, comps := resolve p }) }))
              (resolve p)
              (fun b => { b with attrs := attrSet b.attrs DELETION_DATE_ATTR (toRfc3339 D) })).map
            (fun e => if e.1 = resolve p then (resolve td ++ [nextUuid st], e.2) else e),
          uuids := st.uuids.tail }) := by
  have hcan : canonicalizeFs st.fs p = .ok { absolute := true, comps := resolve p } := by
    unfold canonicalizeFs fsExists
    rw [ho]
    rfl
  have hlook1 : lookupFs (updateFs st.fs (resolve p)
      (fun b => { b with attrs := attrSet b.attrs ORIGINAL_PATH_ATTR (renderPath { absolute := true, comps := resolve p }) })) (resolve p) =
      some { o with attrs := attrSet o.attrs ORIGINAL_PATH_ATTR (renderPath { absolute := true, comps := resolve p }) } := by
    rw [lookupFs_updateFs, if_pos rfl, ho]
    rfl
  have hresu := resolve_push_plain td (nextUuid st) hu hua hudd
  have hrename := renameFs_single (updateFs (updateFs st.fs (resolve p)
      (fun b => { b with attrs := attrSet b.attrs ORIGINAL_PATH_ATTR (renderPath { absolute := true, comps := resolve p }) }))
      (resolve p)
      (fun b => { b with attrs := attrSet b.attrs DELETION_DATE_ATTR (toRfc3339 D) }))
      p (pushPath td (nextUuid st))
      { o with attrs := attrSet (attrSet o.attrs ORIGINAL_PATH_ATTR (renderPath { absolute := true, comps := resolve p })) DELETION_DATE_ATTR (toRfc3339 D) }
      (by rw [lookupFs_updateFs, if_pos rfl, hlook1]; rfl)
      (by
        intro k hk hst
        rw [keys_updateFs, keys_updateFs] at hk
        exact hsub k hk hst)
  rw [hresu] at hrename
  simp only [trashItems, hcan]
  unfold setAttrFs
  simp only [ho]
  rw [if_neg hset1]
  simp only [hlook1]
  rw [if_neg (show DELETION_DATE_ATTR ∉
    ({ o with attrs := attrSet o.attrs ORIGINAL_PATH_ATTR (renderPath { absolute := true, comps := resolve p }) } : FsObj).setErrs
    from hset2)]
  simp only []
  rw [hrename]
  simp only [Bool.not_true, Bool.false_eq_true, if_false, trashItems]

theorem countP_filterMap {α β : Type} (p : β → Bool) (f : α → Option β) (l : List α) :
    (l.filterMap f).countP p =
      l.countP (fun a => match f a with | some b => p b | none => false) := by
  induction l with
  | nil => rfl
  | cons a rest ih =>
    cases hf : f a with
    | none =>
      simp only [List.filterMap_cons, hf, List.countP_cons, ih]
      simp
    | some b =>
      simp only [List.filterMap_cons, hf, List.countP_cons, ih]

theorem countP_congr_mem {α : Type} (l : List α) (p q : α → Bool)
    (h : ∀ a ∈ l, p a = q a) : l.countP p = l.countP q := by
  induction l with
  | nil => rfl
  | cons a rest ih =>
    simp only [List.countP_cons]
    rw [h a (List.mem_cons_self a rest),
      ih (fun b hb => h b (List.mem_cons_of_mem a hb))]

theorem countP_key_unique (fs : Fs) (c : List String)
    (hnd : (fs.map Prod.fst).Nodup) (hc : c ∈ fs.map Prod.fst) :
    fs.countP (fun e => decide (e.1 = c)) = 1 := by
  induction fs with
  | nil => simp at hc
  | cons e rest ih =>
    simp only [List.map_cons, List.nodup_cons] at hnd
    simp only [List.map_cons, List.mem_cons] at hc
    simp only [List.countP_cons]
    by_cases hec : e.1 = c
    · have hrest : rest.countP (fun e => decide (e.1 = c)) = 0 := by
        rw [List.countP_eq_zero]
        intro a ha
        simp only [decide_eq_true_eq]
        intro hac
        exact hnd.1 (hec ▸ hac ▸ List.mem_map_of_mem Prod.fst ha)
      simp [hrest, hec]
    · have hcr : c ∈ rest.map Prod.fst := by
        rcases hc with hc | hc
        · exact absurd hc.symm hec
        · exact hc
      simp [ih hnd.2 hcr, hec]

theorem lookup_entry_unique (fs : Fs) (c : List String) (a o : FsObj)
    (hnd : (fs.map Prod.fst).Nodup) (hmem : (c, a) ∈ fs)
    (ho : lookupFs fs c = some o) : a = o := by
  have := mem_lookupFs fs c a hnd hmem
  rw [ho] at this
  exact Option.some.inj this.symm

theorem updateFs_updateFs_map (fs : Fs) (c d : List String) (g1 g2 : FsObj → FsObj) :
    ((updateFs (updateFs fs c g1) c g2).map
      (fun e => if e.1 = c then (d, e.2) else e)) =
    fs.map (fun e => if e.1 = c then (d, g2 (g1 e.2)) else e) := by
  unfold updateFs
  rw [List.map_map, List.map_map]
  apply List.map_congr_left
  intro e _
  by_cases hec : e.1 = c
  · simp only [Function.comp_apply, if_pos hec]
  · simp only [Function.comp_apply, if_neg hec]

/-- C6 (amended): if no entry already listed in the trash records the
same `original_path` and deletion date, then after successfully trashing
a path `P` with date `D`, `list()` contains exactly one entry whose
`original_path` equals `canonicalize(P)` and whose `deletion_date`
equals `D` — the RFC 3339 write at trash time followed by the RFC 3339
parse at list time round-trips the timestamp exactly
(`parse_toRfc3339`). -/
theorem c6_trash_list_round_trip (td : RPath) (st : TMState) (p : RPath)
    (D : ChronoDateTime) (o : FsObj)
    (hvalid : isValidDT D = true)
    (hwf : WfFs st.fs)
    (ho : lookupFs st.fs (resolve p) = some o)
    (hset1 : ORIGINAL_PATH_ATTR ∉ o.setErrs)
    (hset2 : DELETION_DATE_ATTR ∉ o.setErrs)
    (hget1 : ORIGINAL_PATH_ATTR ∉ o.getErrs)
    (hget2 : DELETION_DATE_ATTR ∉ o.getErrs)
    (hsub : ∀ k ∈ st.fs.map Prod.fst, inSubtree (resolve p) k = true → k = resolve p)
    (hu : strComps (nextUuid st) = [nextUuid st]) (hua : strIsAbs (nextUuid st) = false)
    (hudd : nextUuid st ≠ "..")
    (hold : ∀ i ∈ listOf (resolve td) st.fs,
      ¬(i.original_path = renderPath { absolute := true, comps := resolve p } ∧
        i.deletion_date = D)) :
    (trashItems td st [⟨p, true⟩] D).1 = .ok () ∧
      (listOf (resolve td) (trashItems td st [⟨p, true⟩] D).2.fs).countP
        (fun i =>
          decide (i.original_path =
            renderPath { absolute := true, comps := resolve p }) &&
          decide (i.deletion_date = D)) = 1 := by
  have hrun := c6_trash_run td st p D o ho hset1 hset2 hsub hu hua hudd
  refine ⟨by rw [hrun], ?_⟩
  rw [hrun]
  simp only []
  rw [updateFs_updateFs_map]
  unfold listOf
  rw [List.filterMap_map, countP_filterMap]
  rw [countP_congr_mem _ _ (fun e => decide (e.1 = resolve p)) ?_]
  · exact countP_key_unique st.fs (resolve p) hwf.1
      (List.mem_map_of_mem Prod.fst (lookupFs_mem st.fs (resolve p) o ho))
  · intro e he
    by_cases hec : e.1 = resolve p
    · have heo : e.2 = o := by
        apply lookup_entry_unique st.fs (resolve p) e.2 o hwf.1
        · rw [← hec]
          exact (by cases e; exact he)
        · exact ho
      simp only [Function.comp_apply, if_pos hec, heo]
      unfold entryItem
      rw [dropLead_append]
      simp only []
      rw [if_neg (show ORIGINAL_PATH_ATTR ∉ o.getErrs from hget1)]
      rw [attrLookup_attrSet, if_neg (by decide), attrLookup_attrSet, if_pos rfl]
      simp only []
      rw [if_neg (show DELETION_DATE_ATTR ∉ o.getErrs from hget2)]
      rw [attrLookup_attrSet, if_pos rfl]
      simp only []
      rw [parse_toRfc3339 D hvalid]
      simp [hec]
    · simp only [Function.comp_apply, if_neg hec]
      rw [decide_eq_false hec]
      cases hei : entryItem (resolve td) e with
      | none =>
        simp [hei]
      | some i =>
        have hi : i ∈ listOf (resolve td) st.fs :=
          (mem_listOf _ _ _).mpr ⟨e, he, hei⟩
        have hni := hold i hi
        simp only [hei]
        rw [Bool.eq_false_iff]
        intro hAB
        simp only [Bool.and_eq_true, decide_eq_true_eq] at hAB
        exact hni hAB

def c6td : RPath := { absolute := true, comps := ["trash"] }

def c6date : ChronoDateTime := ⟨2024, 3, 4, 5, 6, 7, 0⟩

def c6oldObj : FsObj :=
  { isDir := false,
    attrs := [(ORIGINAL_PATH_ATTR, "/tmp/a"), (DELETION_DATE_ATTR, toRfc3339 c6date)] }

def c6fsDup : Fs :=
  [(["trash"], { isDir := true, attrs := [] }), (["trash", "old"], c6oldObj),
    (["tmp"], { isDir := true, attrs := [] }),
    (["tmp", "a"], { isDir := false, attrs := [] })]

def c6stDup : TMState := { fs := c6fsDup, uuids := ["u2"] }

/-- Counterexample to C6 as stated: the trash already holds an entry
recording `original_path = /tmp/a` with the same deletion date (the file
was trashed before and recreated).  Trashing `/tmp/a` again succeeds,
and the subsequent listing contains two entries matching
`original_path = canonicalize(/tmp/a)` and the given date — not exactly
one. -/
theorem c6_round_trip_counterexample :
    (trashItems c6td c6stDup [⟨parsePathStr "/tmp/a", true⟩] c6date).1 = .ok () ∧
      (listOf ["trash"]
          (trashItems c6td c6stDup [⟨parsePathStr "/tmp/a", true⟩] c6date).2.fs).countP
        (fun i => decide (i.original_path = "/tmp/a") &&
          decide (i.deletion_date = c6date)) = 2 :=
  ⟨by rfl, by rfl⟩

def c6fs : Fs :=
  [(["trash"], { isDir := true, attrs := [] }),
    (["tmp"], { isDir := true, attrs := [] }),
    (["tmp", "a"], { isDir := false, attrs := [] })]

def c6st : TMState := { fs := c6fs, uuids := ["u7"] }

def c6D : ChronoDateTime := ⟨2024, 8, 9, 10, 11, 12, 130000000⟩

/-- Witness for the amended C6 at a concrete state (with a
millisecond-precision deletion date exercising the fractional-seconds
round-trip). -/
theorem c6_trash_list_round_trip_witness :
    (trashItems c6td c6st [⟨parsePathStr "/tmp/a", true⟩] c6D).1 = .ok () ∧
      (listOf ["trash"]
          (trashItems c6td c6st [⟨parsePathStr "/tmp/a", true⟩] c6D).2.fs).countP
        (fun i => decide (i.original_path = "/tmp/a") &&
          decide (i.deletion_date = c6D)) = 1 :=
  c6_trash_list_round_trip c6td c6st (parsePathStr "/tmp/a") c6D
    { isDir := false, attrs := [] }
    (by decide) (by decide) (by rfl) (by decide) (by decide) (by decide) (by decide)
    (by decide) (by decide) (by decide) (by decide) (by decide)

def c1td : RPath := { absolute := true, comps := ["trash"] }

def c1date : ChronoDateTime := ⟨2024, 1, 1, 0, 0, 1, 0⟩

def c1now : ChronoDateTime := ⟨2024, 1, 1, 0, 0, 0, 0⟩

def c1obj : FsObj :=
  { isDir := false,
    attrs := [(ORIGINAL_PATH_ATTR, "/tmp/a"), (DELETION_DATE_ATTR, toRfc3339 c1date)] }

def c1fs : Fs := [(["trash"], { isDir := true, attrs := [] }), (["trash", "id1"], c1obj)]

def c1item : TrashItem :=
  { id := "id1", path := { absolute := true, comps := ["trash", "id1"] },
    original_path := "/tmp/a", deletion_date := c1date }

/-- Witness for C1 at a concrete state: the entry is dated one second
after `now` (`deletion_date = now + 1s`), so `dtLt` is `false` and the
entry survives the purge (`purge(false)` maps the state to itself). -/
theorem c1_purge_grace_boundary_witness :
    (fsExists c1fs c1item.path = false ↔ dtLt c1item.deletion_date c1now = true) ∧
      dtLt c1item.deletion_date c1now = false ∧ fsExists c1fs c1item.path = true :=
  ⟨c1_purge_grace_boundary c1td c1fs c1fs c1now [c1item] c1item
      (by decide) (by rfl) (List.mem_cons_self _ _) (by rfl),
    by decide, by decide⟩

end Rrm
